import Mathlib

/-!
Shallow embedding of the wikiwatch archiver (src/main.py).

The archiver walks a wiki page's revision ancestry and stores each revision's
content (gzipped) and metadata (YAML) into S3, ancestors first.  We embed:

* Python dicts as association lists with insert-or-update semantics
  (`dictInsert`, `dictUpdate`, `dictLookup`);
* `mwapi_query`'s per-response processing (`mwapi_step`), its continuation
  resolution (`continueParamsOf`, lines 68-79 of main.py), and a full run of
  the generator against a scripted list of responses (`mwapi_query_run`);
* the S3 key derivation (`s3_key_for_revision_metadata` /
  `s3_key_for_revision_content`, the `\x7b:08d\x7d` padding becoming `pad8`);
* `handle_revision` (lines 174-242) as a fuel-indexed function from an
  explicit storage state to a new state paired with an optional error.  The
  state carries both the set of stored objects and a chronological trace of
  storage/network events, so that ordering and frame properties are statable.
  Python `assert` failures in `handle_revision` are `ArchError.protocolError`;
  a `KeyError` (the `revision['slots']` access) is `ArchError.keyError`;
  `WikiError` raised by `mwapi_query` is `ArchError.remoteError`; fuel
  exhaustion (`ArchError.fuelOut`) is an artifact of the embedding standing
  for non-termination of the unbounded Python recursion.
-/

namespace Wikiwatch

/-- Python `dict` with `String` values, as an association list in insertion
order (Python 3.7+ dicts preserve insertion order). -/
abbrev Dict := List (String × String)

/-- Python `d[k] = v`: replace in place if the key is present, else append. -/
def dictInsert (d : Dict) (k v : String) : Dict :=
  if d.any (fun p => p.1 == k) then
    d.map (fun p => if p.1 == k then (k, v) else p)
  else
    d ++ [(k, v)]

/-- Python `d.update(src)`: insert each of src's pairs in order. -/
def dictUpdate (d : Dict) (src : Dict) : Dict :=
  src.foldl (fun acc p => dictInsert acc p.1 p.2) d

/-- Python `d[k]` / `k in d` for association lists of any value type. -/
def dictLookup {α : Type} (d : List (String × α)) (k : String) : Option α :=
  (d.find? (fun p => p.1 == k)).map (fun p => p.2)

/-- Python `'\x7b:08d\x7d'.format(n)`: decimal digits of n, left-padded with
zeros to at least 8 characters. -/
def pad8 (n : Nat) : String :=
  if (toString n).length < 8 then
    String.mk (List.replicate (8 - (toString n).length) '0') ++ toString n
  else
    toString n

/-- One wiki's configuration as used by the archiver: bucket, key namespace
(the configuration's s3_prefix value, field renamed here), and the optional
`slots` selector.  (The API endpoint is abstracted by the `Remote` oracle.) -/
structure Wiki where
  s3_bucket : String
  s3_pref : String
  slots : Option String
deriving DecidableEq, Repr

/-- Key of the S3 object storing a revision's metadata
(`s3_key_for_revision_metadata`, main.py lines 116-122). -/
def s3_key_for_revision_metadata (wiki : Wiki) (pageid revid : Nat) : String :=
  wiki.s3_pref ++ "page_" ++ pad8 pageid ++ "/rev_" ++ pad8 revid ++ ".yaml"

/-- Key of the S3 object storing a revision's gzipped content
(`s3_key_for_revision_content`, main.py lines 124-130). -/
def s3_key_for_revision_content (wiki : Wiki) (pageid revid : Nat) : String :=
  wiki.s3_pref ++ "page_" ++ pad8 pageid ++ "/rev_" ++ pad8 revid ++ "_data.gz"

/-- The metadata dict written by `handle_revision` (main.py lines 233-242). -/
structure Metadata where
  pageid : Nat
  title : String
  url : String
  revid : Nat
  parentid : Nat
  user : String
  timestamp : String
  comment : String
deriving DecidableEq, Repr

/-- A stored S3 object's body: gzipped content (represented by the raw text,
since gzip at a fixed level is a deterministic injective encoding) or a YAML
metadata document (represented by the structured value). -/
inductive SVal where
  | content (data : String)
  | meta (m : Metadata)
deriving DecidableEq, Repr

/-- A stored object: (bucket, key, body). -/
abbrev SObj := String × String × SVal

/-- The function `s3_key_exists` (main.py lines 103-114): HEAD probe against storage. -/
def s3_key_exists (objs : List SObj) (bucket key : String) : Bool :=
  objs.any (fun o => o.1 == bucket && o.2.1 == key)

/-- One storage or network action performed by the archiver, in the order
performed.  `head` is an existence probe (a read), `fetch` is the
single-revid MediaWiki API request, the two puts are storage writes. -/
inductive Event where
  | head (bucket key : String)
  | fetch (revid : Nat) (withContent : Bool)
  | putContent (pageid revid : Nat) (data : String)
  | putMeta (pageid revid : Nat) (m : Metadata)
deriving DecidableEq, Repr

/-- Archiver state: current storage contents plus the chronological trace of
actions performed so far. -/
structure ArchSt where
  objects : List SObj
  events : List Event
deriving DecidableEq, Repr

/-- A revision as it appears in the JSON response (fields optional because
the remote may omit them; `star` is the legacy flat content field named *,
`slots` the dict of slot dicts). -/
structure RawRevision where
  revid : Option Nat
  parentid : Option Nat
  user : Option String
  timestamp : Option String
  comment : Option String
  star : Option String
  slots : Option (List (String × Dict))
deriving DecidableEq, Repr

/-- A page as it appears in the JSON response. -/
structure RawPage where
  pageid : Option Nat
  title : Option String
  fullurl : Option String
  revisions : Option (List RawRevision)
deriving DecidableEq, Repr

/-- The `query` member of the JSON response to the single-revid request:
`pages` is a dict keyed by the decimal pageid string. -/
structure RawResult where
  pages : Option (List (String × RawPage))
deriving DecidableEq, Repr

/-- Outcome of `next(mwapi_query(api, req_params))` as seen by
`handle_revision`: the generator raised WikiError (`raised`), ended without
yielding so that `next` raised StopIteration (`exhausted`), or produced a
first result fragment. -/
inductive RemoteResp where
  | raised
  | exhausted
  | ok (result : RawResult)
deriving DecidableEq, Repr

/-- The remote wiki, abstracted: response to the single-revid query, as a
function of the requested revid and of whether content was requested. -/
abbrev Remote := Nat → Bool → RemoteResp

/-- Failure modes of the embedded archiver.  `protocolError` stands for a
Python AssertionError, `keyError` for a KeyError, `remoteError` for
WikiError, `stopIter` for StopIteration; `fuelOut` is the embedding's stand-in
for non-termination of the unbounded recursion. -/
inductive ArchError where
  | remoteError
  | stopIter
  | protocolError
  | keyError
  | fuelOut
deriving DecidableEq, Repr

/-- The data extracted by the validation asserts of `handle_revision`
(main.py lines 205-222). -/
structure ValidData where
  pgid : Nat
  title : String
  fullurl : String
  rev : RawRevision
  parentid : Nat
  user : String
  timestamp : String
  comment : String
deriving DecidableEq, Repr

/-- The chain of validation asserts on the single-revid response
(main.py lines 205-222), in source order; every failure is an
AssertionError, i.e. `protocolError`. -/
def validate_response (pageid revid : Nat) (result : RawResult) :
    Except ArchError ValidData :=
  match result.pages with
  | none => .error .protocolError
  | some pages =>
    match dictLookup pages (toString pageid) with
    | none => .error .protocolError
    | some page =>
      if pages.length = 1 then
        match page.pageid with
        | none => .error .protocolError
        | some pgid =>
          if pgid = pageid then
            match page.title with
            | none => .error .protocolError
            | some title =>
              match page.fullurl with
              | none => .error .protocolError
              | some fullurl =>
                match page.revisions with
                | none => .error .protocolError
                | some revs =>
                  match revs with
                  | [rev] =>
                    match rev.revid with
                    | none => .error .protocolError
                    | some rvid =>
                      if rvid = revid then
                        match rev.parentid with
                        | none => .error .protocolError
                        | some parentid =>
                          match rev.user, rev.timestamp, rev.comment with
                          | some user, some timestamp, some comment =>
                            .ok { pgid := pgid, title := title,
                                  fullurl := fullurl, rev := rev,
                                  parentid := parentid, user := user,
                                  timestamp := timestamp, comment := comment }
                          | _, _, _ => .error .protocolError
                      else .error .protocolError
                  | _ => .error .protocolError
          else .error .protocolError
      else .error .protocolError

/-- Content extraction (main.py lines 224-230): slot-based path when the
wiki config has a `slots` selector, legacy flat * field otherwise.  The
`revision['slots']` subscript raises KeyError when absent; the membership
asserts raise AssertionError. -/
def extract_content (wiki : Wiki) (rev : RawRevision) : Except ArchError String :=
  match wiki.slots with
  | some _ =>
    match rev.slots with
    | none => .error .keyError
    | some sl =>
      match dictLookup sl "main" with
      | none => .error .protocolError
      | some mainD =>
        match dictLookup mainD "*" with
        | none => .error .protocolError
        | some c => .ok c
  | none =>
    match rev.star with
    | none => .error .protocolError
    | some c => .ok c

/-- The metadata value written at main.py lines 233-242. -/
def mkMeta (v : ValidData) (revid : Nat) : Metadata :=
  { pageid := v.pgid, title := v.title, url := v.fullurl, revid := revid,
    parentid := v.parentid, user := v.user, timestamp := v.timestamp,
    comment := v.comment }

/-- Append one event to the trace (storage contents unchanged). -/
def recordEvent (st : ArchSt) (e : Event) : ArchSt :=
  { st with events := st.events ++ [e] }

/-- The function `s3_put_revision_content` (main.py lines 159-172): write the gzipped
content object and record the write. -/
def putContentSt (wiki : Wiki) (pageid revid : Nat) (c : String) (st : ArchSt) :
    ArchSt :=
  { objects := st.objects ++
      [(wiki.s3_bucket, s3_key_for_revision_content wiki pageid revid, .content c)],
    events := st.events ++ [.putContent pageid revid c] }

/-- The function `s3_put_revision_metadata` (main.py lines 146-157): write the YAML
metadata object and record the write. -/
def putMetaSt (wiki : Wiki) (pageid revid : Nat) (m : Metadata) (st : ArchSt) :
    ArchSt :=
  { objects := st.objects ++
      [(wiki.s3_bucket, s3_key_for_revision_metadata wiki pageid revid, .meta m)],
    events := st.events ++ [.putMeta pageid revid m] }

/-- Result of the non-recursive part of `handle_revision`: either return
immediately (with an optional raised error), or proceed to the recursive
call on `parentid` followed by the metadata write of `m`. -/
inductive PrepOut where
  | halt (e : Option ArchError)
  | recur (parentid : Nat) (m : Metadata)
deriving DecidableEq, Repr

/-- Everything `handle_revision` (main.py lines 174-242) does before its
recursive call: the revid-0 sentinel check, the metadata-existence
memoization check, the content-existence check, the single-revid fetch, the
validation asserts, and the conditional content extraction and write. -/
def handle_prepare (wiki : Wiki) (remote : Remote) (pageid revid : Nat)
    (st : ArchSt) : ArchSt × PrepOut :=
  if revid = 0 then (st, .halt none)
  else
    let mkey := s3_key_for_revision_metadata wiki pageid revid
    let st1 := recordEvent st (.head wiki.s3_bucket mkey)
    if s3_key_exists st.objects wiki.s3_bucket mkey then (st1, .halt none)
    else
      let ckey := s3_key_for_revision_content wiki pageid revid
      let st2 := recordEvent st1 (.head wiki.s3_bucket ckey)
      let need := ! s3_key_exists st.objects wiki.s3_bucket ckey
      let st3 := recordEvent st2 (.fetch revid need)
      match remote revid need with
      | .raised => (st3, .halt (some .remoteError))
      | .exhausted => (st3, .halt (some .stopIter))
      | .ok result =>
        match validate_response pageid revid result with
        | .error e => (st3, .halt (some e))
        | .ok v =>
          if need then
            match extract_content wiki v.rev with
            | .error e => (st3, .halt (some e))
            | .ok c =>
              (putContentSt wiki pageid revid c st3, .recur v.parentid (mkMeta v revid))
          else
            (st3, .recur v.parentid (mkMeta v revid))

/-- The function `handle_revision` (main.py lines 174-242), with fuel bounding the
recursion depth: prepare, then recurse on the parent, then write this
revision's metadata.  An error from the recursive call propagates (the
Python exception unwinds), leaving storage as the recursive call left it. -/
def handle_revision (wiki : Wiki) (remote : Remote) :
    Nat → Nat → Nat → ArchSt → ArchSt × Option ArchError
  | fuel, pageid, revid, st =>
    match handle_prepare wiki remote pageid revid st with
    | (st1, .halt e) => (st1, e)
    | (st1, .recur parentid m) =>
      match fuel with
      | 0 => (st1, some .fuelOut)
      | fuel' + 1 =>
        match handle_revision wiki remote fuel' pageid parentid st1 with
        | (st2, some e) => (st2, some e)
        | (st2, none) => (putMetaSt wiki pageid revid m st2, none)

/-- A parsed JSON response to one request of `mwapi_query`: the four
top-level members the code inspects.  The payload of the `query` member is
abstract (type parameter), error/warnings payloads are kept as strings. -/
structure ApiResponse (α : Type) where
  error : Option String
  warnings : Option String
  query : Option α
  queryContinue : Option (List (String × Dict))
deriving DecidableEq, Repr

/-- Python `k.startswith('g')` for the one-character generator prefix
marker: true iff the first character is g.  (Defined on the character list
so that it evaluates inside the kernel.) -/
def startsWithG (s : String) : Bool :=
  match s.data with
  | [] => false
  | c :: _ => c == 'g'

/-- Continuation resolution of `mwapi_query` (main.py lines 68-79): build the
next request's continuation parameters from the `query-continue` block.
First pass collects every second-level pair whose key does not start with
`g`; if that leaves the dict empty, a second pass updates with all
second-level dicts unconditionally. -/
def continueParamsOf (qc : List (String × Dict)) : Dict :=
  let firstPass :=
    qc.foldl
      (fun acc p1 =>
        p1.2.foldl
          (fun acc2 p2 =>
            if startsWithG p2.1 then acc2 else dictInsert acc2 p2.1 p2.2)
          acc)
      []
  if firstPass.isEmpty then
    qc.foldl (fun acc p1 => dictUpdate acc p1.2) []
  else
    firstPass

/-- What one loop iteration of `mwapi_query` (main.py lines 53-79) does with
a parsed response: raise WikiError carrying the error payload, or yield the
optional result fragment and decide whether to continue (with which
parameters) or stop. -/
inductive MwStep (α : Type) where
  | fail (payload : String)
  | ok (yielded : Option α) (cont : Option Dict)
deriving DecidableEq, Repr

/-- Process one parsed response as `mwapi_query` does (main.py lines 53-79):
abort on an `error` member even under HTTP 200, abort on a `warnings`
member, otherwise yield the `query` member if present and compute the
continuation parameters from the `query-continue` block if present. -/
def mwapi_step {α : Type} (j : ApiResponse α) : MwStep α :=
  match j.error with
  | some e => .fail e
  | none =>
    match j.warnings with
    | some w => .fail w
    | none => .ok j.query ((j.queryContinue).map continueParamsOf)

/-- The fragments yielded by a step: none when the step raised. -/
def MwStep.yields {α : Type} : MwStep α → List α
  | .fail _ => []
  | .ok y _ => y.toList

/-- The request loop of `mwapi_query` (main.py lines 44-79), value-level
view: each iteration builds `current_params` as a fresh copy of the base
dict updated with the current continuation parameters, sends it, and
processes the response. -/
def mwapi_loop {α : Type} (base : Dict) :
    List (ApiResponse α) → Dict → List Dict × List α × Option String × Bool
  | [], _ => ([], [], none, true)
  | j :: rest, cont =>
    let current := dictUpdate base cont
    match mwapi_step j with
    | .fail p => ([current], [], some p, false)
    | .ok y contOpt =>
      match contOpt with
      | none => ([current], y.toList, none, false)
      | some cp =>
        match mwapi_loop base rest cp with
        | (rs, ys, f, tr) => (current :: rs, y.toList ++ ys, f, tr)

/-! ### Reference semantics of the dicts handled by mwapi_query

Python dicts are mutable objects handled by reference: `d[k] = v` and
`d.update(...)` mutate the object every alias sees, while `d.copy()`
creates a fresh unaliased object.  To state what `mwapi_query` does to the
CALLER'S dict object we model a heap of dict objects addressed by numeric
references.  A mutation through one reference is visible through every
alias of it, so this embedding distinguishes the code as written (which
copies at lines 34 and 45) from a variant that mutated `params` in place. -/

/-- The heap of live dict objects; a reference is an index into it. -/
abbrev Heap := List Dict

/-- Dereference (reading a dangling reference gives the empty dict). -/
def heapGet (h : Heap) (r : Nat) : Dict := h.getD r []

/-- Overwrite the object a reference points to — the model of in-place
mutation, visible through every alias of r. -/
def heapSet (h : Heap) (r : Nat) (d : Dict) : Heap := h.set r d

/-- Python `d.copy()` / a dict display: allocate a fresh, unaliased object
and return its reference. -/
def heapAlloc (h : Heap) (d : Dict) : Heap × Nat := (h ++ [d], h.length)

/-- Python `d[k] = v` on the object `r` points to. -/
def heapInsertRef (h : Heap) (r : Nat) (k v : String) : Heap :=
  heapSet h r (dictInsert (heapGet h r) k v)

/-- Python `dst.update(src)` between two dict objects. -/
def heapUpdateRef (h : Heap) (dst src : Nat) : Heap :=
  heapSet h dst (dictUpdate (heapGet h dst) (heapGet h src))

/-- Outcome of driving the `mwapi_query` generator to completion against a
scripted list of responses: the final heap of dict objects, the request
parameter dicts sent (in order), the result fragments yielded, the
WikiError payload if one was raised, and a flag marking the model artifact
of the script running out mid-query. -/
structure MwRun (α : Type) where
  heap : Heap
  requests : List Dict
  yields : List α
  failed : Option String
  truncated : Bool
deriving Repr

/-- The request loop of `mwapi_query` (main.py lines 44-79) at the heap
level.  Line 45: `current_params = base_params.copy()` allocates a fresh
object; line 46: `current_params.update(continue_params)` mutates it in
place.  Lines 69-76 rebind `continue_params` to a fresh object and build it
up by mutation; since that object is unaliased until the next iteration,
allocating it directly with its final value `continueParamsOf qc` (already
delivered by `mwapi_step`) is observationally identical. -/
def mwapi_loop_heap {α : Type} (br : Nat) :
    List (ApiResponse α) → Heap → Nat → MwRun α
  | [], h, _ => ⟨h, [], [], none, true⟩
  | j :: rest, h, cr =>
    let al := heapAlloc h (heapGet h br)
    let h1 := al.1
    let curr := al.2
    let h2 := heapUpdateRef h1 curr cr
    let req := heapGet h2 curr
    match mwapi_step j with
    | .fail p => ⟨h2, [req], [], some p, false⟩
    | .ok y contOpt =>
      match contOpt with
      | none => ⟨h2, [req], y.toList, none, false⟩
      | some cp =>
        let al2 := heapAlloc h2 cp
        let r := mwapi_loop_heap br rest al2.1 al2.2
        ⟨r.heap, req :: r.requests, y.toList ++ r.yields, r.failed, r.truncated⟩

/-- A whole call of `mwapi_query` (main.py lines 30-79) against a scripted
response list, at the heap level.  `pr` is the caller's reference to the
params dict.  Line 34: `base_params = params.copy()` allocates a fresh
object; lines 35-38 mutate that fresh object in place; line 41 binds
`continue_params` to a fresh empty dict. -/
def mwapi_query_run {α : Type} (h : Heap) (pr : Nat)
    (responses : List (ApiResponse α)) : MwRun α :=
  let al := heapAlloc h (heapGet h pr)
  let h0 := al.1
  let br := al.2
  let h1 := heapInsertRef h0 br "action" "query"
  let h2 := heapInsertRef h1 br "format" "json"
  let h3 := heapInsertRef h2 br "rawcontinue" ""
  let h4 := heapInsertRef h3 br "maxlag" "1"
  let al2 := heapAlloc h4 []
  mwapi_loop_heap br responses al2.1 al2.2

/-! ## Basic facts about keys and existence checks -/

/-- A content key never collides with a metadata key: the suffixes differ
(the last character is z versus l). -/
theorem content_key_last (w : Wiki) (p r : Nat) :
    (s3_key_for_revision_content w p r).data.getLast? = some 'z' := by
  simp only [s3_key_for_revision_content, String.data_append]
  rw [List.getLast?_append_of_ne_nil _ (by decide)]
  decide

theorem metadata_key_last (w : Wiki) (p r : Nat) :
    (s3_key_for_revision_metadata w p r).data.getLast? = some 'l' := by
  simp only [s3_key_for_revision_metadata, String.data_append]
  rw [List.getLast?_append_of_ne_nil _ (by decide)]
  decide

/-- A content key never collides with a metadata key: the suffixes differ
(the last character is z versus l). -/
theorem content_key_ne_metadata_key (w1 w2 : Wiki) (p1 r1 p2 r2 : Nat) :
    s3_key_for_revision_content w1 p1 r1 ≠ s3_key_for_revision_metadata w2 p2 r2 := by
  intro h
  have hd := congrArg (fun s => s.data.getLast?) h
  simp only [] at hd
  rw [content_key_last, metadata_key_last] at hd
  exact absurd hd (by decide)

/-- Existence probes distribute over storage append. -/
theorem s3_key_exists_append (l1 l2 : List SObj) (b k : String) :
    s3_key_exists (l1 ++ l2) b k = (s3_key_exists l1 b k || s3_key_exists l2 b k) := by
  simp [s3_key_exists, List.any_append]

/-- The object just written is seen by a subsequent existence probe. -/
theorem s3_key_exists_last (l : List SObj) (b k : String) (v : SVal) :
    s3_key_exists (l ++ [(b, k, v)]) b k = true := by
  simp [s3_key_exists, List.any_append]

/-! ## Case analysis of the non-recursive part of handle_revision -/

/-- When validation succeeds, the extracted page id is the requested one
(the `page['pageid'] == pageid` assert). -/
theorem validate_response_pgid (pageid revid : Nat) (result : RawResult)
    (v : ValidData) (h : validate_response pageid revid result = .ok v) :
    v.pgid = pageid := by
  unfold validate_response at h
  repeat' split at h
  all_goals try simp_all
  all_goals (cases h; rfl)

/-- Validation failures are always AssertionErrors, i.e. protocolError. -/
theorem validate_response_error (pageid revid : Nat) (result : RawResult)
    (e : ArchError) (h : validate_response pageid revid result = .error e) :
    e = .protocolError := by
  unfold validate_response at h
  repeat' split at h
  all_goals simp_all

/-- Exhaustive description of `handle_prepare`: the five ways the
non-recursive part of `handle_revision` can go — revid-0 sentinel, metadata
memoization hit, a raised error after the fetch, and the two recur cases
(content already present / content fetched and written). -/
theorem handle_prepare_cases (wiki : Wiki) (remote : Remote) (pageid revid : Nat)
    (st : ArchSt) :
    (revid = 0 ∧ handle_prepare wiki remote pageid revid st = (st, .halt none)) ∨
    (revid ≠ 0 ∧
      s3_key_exists st.objects wiki.s3_bucket
        (s3_key_for_revision_metadata wiki pageid revid) = true ∧
      handle_prepare wiki remote pageid revid st =
        ({ st with events := st.events ++
            [.head wiki.s3_bucket (s3_key_for_revision_metadata wiki pageid revid)] },
         .halt none)) ∨
    (∃ e, revid ≠ 0 ∧
      s3_key_exists st.objects wiki.s3_bucket
        (s3_key_for_revision_metadata wiki pageid revid) = false ∧
      handle_prepare wiki remote pageid revid st =
        ({ st with events := st.events ++
            [.head wiki.s3_bucket (s3_key_for_revision_metadata wiki pageid revid),
             .head wiki.s3_bucket (s3_key_for_revision_content wiki pageid revid),
             .fetch revid (! s3_key_exists st.objects wiki.s3_bucket
                (s3_key_for_revision_content wiki pageid revid))] },
         .halt (some e))) ∨
    (∃ par m, revid ≠ 0 ∧
      s3_key_exists st.objects wiki.s3_bucket
        (s3_key_for_revision_metadata wiki pageid revid) = false ∧
      s3_key_exists st.objects wiki.s3_bucket
        (s3_key_for_revision_content wiki pageid revid) = true ∧
      m.pageid = pageid ∧ m.revid = revid ∧ m.parentid = par ∧
      handle_prepare wiki remote pageid revid st =
        ({ st with events := st.events ++
            [.head wiki.s3_bucket (s3_key_for_revision_metadata wiki pageid revid),
             .head wiki.s3_bucket (s3_key_for_revision_content wiki pageid revid),
             .fetch revid false] },
         .recur par m)) ∨
    (∃ par m c, revid ≠ 0 ∧
      s3_key_exists st.objects wiki.s3_bucket
        (s3_key_for_revision_metadata wiki pageid revid) = false ∧
      s3_key_exists st.objects wiki.s3_bucket
        (s3_key_for_revision_content wiki pageid revid) = false ∧
      m.pageid = pageid ∧ m.revid = revid ∧ m.parentid = par ∧
      handle_prepare wiki remote pageid revid st =
        ({ objects := st.objects ++
            [(wiki.s3_bucket, s3_key_for_revision_content wiki pageid revid, .content c)],
           events := st.events ++
            [.head wiki.s3_bucket (s3_key_for_revision_metadata wiki pageid revid),
             .head wiki.s3_bucket (s3_key_for_revision_content wiki pageid revid),
             .fetch revid true,
             .putContent pageid revid c] },
         .recur par m)) := by
  by_cases h0 : revid = 0
  · exact Or.inl ⟨h0, by simp [handle_prepare, h0]⟩
  by_cases hm : s3_key_exists st.objects wiki.s3_bucket
      (s3_key_for_revision_metadata wiki pageid revid) = true
  · exact Or.inr (Or.inl ⟨h0, hm, by simp [handle_prepare, h0, hm, recordEvent]⟩)
  have hm' : s3_key_exists st.objects wiki.s3_bucket
      (s3_key_for_revision_metadata wiki pageid revid) = false := by
    simpa using hm
  by_cases hc : s3_key_exists st.objects wiki.s3_bucket
      (s3_key_for_revision_content wiki pageid revid) = true
  · -- content already exists: need = false
    rcases hr : remote revid (! s3_key_exists st.objects wiki.s3_bucket
        (s3_key_for_revision_content wiki pageid revid)) with _ | _ | result
    · exact Or.inr (Or.inr (Or.inl ⟨.remoteError, h0, hm', by
        simp [handle_prepare, h0, hm', hc, recordEvent, List.append_assoc]
        simp [hc] at hr
        simp [hr]⟩))
    · exact Or.inr (Or.inr (Or.inl ⟨.stopIter, h0, hm', by
        simp [handle_prepare, h0, hm', hc, recordEvent, List.append_assoc]
        simp [hc] at hr
        simp [hr]⟩))
    · rcases hv : validate_response pageid revid result with e | v
      · exact Or.inr (Or.inr (Or.inl ⟨e, h0, hm', by
          simp [handle_prepare, h0, hm', hc, recordEvent, List.append_assoc]
          simp [hc] at hr
          simp [hr, hv]⟩))
      · refine Or.inr (Or.inr (Or.inr (Or.inl
          ⟨v.parentid, mkMeta v revid, h0, hm', hc,
           validate_response_pgid pageid revid result v hv, rfl, rfl, ?_⟩)))
        simp [handle_prepare, h0, hm', hc, recordEvent, List.append_assoc]
        simp [hc] at hr
        simp [hr, hv]
  · -- content missing: need = true
    have hc' : s3_key_exists st.objects wiki.s3_bucket
        (s3_key_for_revision_content wiki pageid revid) = false := by simpa using hc
    rcases hr : remote revid (! s3_key_exists st.objects wiki.s3_bucket
        (s3_key_for_revision_content wiki pageid revid)) with _ | _ | result
    · exact Or.inr (Or.inr (Or.inl ⟨.remoteError, h0, hm', by
        simp [handle_prepare, h0, hm', hc', recordEvent, List.append_assoc]
        simp [hc'] at hr
        simp [hr]⟩))
    · exact Or.inr (Or.inr (Or.inl ⟨.stopIter, h0, hm', by
        simp [handle_prepare, h0, hm', hc', recordEvent, List.append_assoc]
        simp [hc'] at hr
        simp [hr]⟩))
    · rcases hv : validate_response pageid revid result with e | v
      · exact Or.inr (Or.inr (Or.inl ⟨e, h0, hm', by
          simp [handle_prepare, h0, hm', hc', recordEvent, List.append_assoc]
          simp [hc'] at hr
          simp [hr, hv]⟩))
      · rcases he : extract_content wiki v.rev with e | c
        · exact Or.inr (Or.inr (Or.inl ⟨e, h0, hm', by
            simp [handle_prepare, h0, hm', hc', recordEvent, List.append_assoc]
            simp [hc'] at hr
            simp [hr, hv, he]⟩))
        · refine Or.inr (Or.inr (Or.inr (Or.inr
            ⟨v.parentid, mkMeta v revid, c, h0, hm', hc',
             validate_response_pgid pageid revid result v hv, rfl, rfl, ?_⟩)))
          simp [handle_prepare, h0, hm', hc', recordEvent, putContentSt,
            List.append_assoc]
          simp [hc'] at hr
          simp [hr, hv, he]

/-! ## Unfolding lemmas for handle_revision -/

theorem handle_revision_eq (wiki : Wiki) (remote : Remote) (fuel pageid revid : Nat)
    (st : ArchSt) :
    handle_revision wiki remote fuel pageid revid st =
      match handle_prepare wiki remote pageid revid st with
      | (st1, .halt e) => (st1, e)
      | (st1, .recur parentid m) =>
        match fuel with
        | 0 => (st1, some .fuelOut)
        | fuel' + 1 =>
          match handle_revision wiki remote fuel' pageid parentid st1 with
          | (st2, some e) => (st2, some e)
          | (st2, none) => (putMetaSt wiki pageid revid m st2, none) := by
  rw [handle_revision]

theorem handle_revision_halt (wiki : Wiki) (remote : Remote) (fuel pageid revid : Nat)
    (st st1 : ArchSt) (e : Option ArchError)
    (hp : handle_prepare wiki remote pageid revid st = (st1, .halt e)) :
    handle_revision wiki remote fuel pageid revid st = (st1, e) := by
  rw [handle_revision_eq, hp]

theorem handle_revision_recur_zero (wiki : Wiki) (remote : Remote) (pageid revid : Nat)
    (st st1 : ArchSt) (par : Nat) (m : Metadata)
    (hp : handle_prepare wiki remote pageid revid st = (st1, .recur par m)) :
    handle_revision wiki remote 0 pageid revid st = (st1, some .fuelOut) := by
  rw [handle_revision_eq, hp]

theorem handle_revision_recur_succ (wiki : Wiki) (remote : Remote) (fuel pageid revid : Nat)
    (st st1 : ArchSt) (par : Nat) (m : Metadata)
    (hp : handle_prepare wiki remote pageid revid st = (st1, .recur par m)) :
    handle_revision wiki remote (fuel + 1) pageid revid st =
      match handle_revision wiki remote fuel pageid par st1 with
      | (st2, some e) => (st2, some e)
      | (st2, none) => (putMetaSt wiki pageid revid m st2, none) := by
  rw [handle_revision_eq, hp]

/-! ## The trace/storage correspondence -/

/-- The storage object a trace event creates, if any. -/
def eventObj (wiki : Wiki) : Event → Option SObj
  | .putContent p r c =>
    some (wiki.s3_bucket, s3_key_for_revision_content wiki p r, .content c)
  | .putMeta p r m =>
    some (wiki.s3_bucket, s3_key_for_revision_metadata wiki p r, .meta m)
  | _ => none

/-- Replay one event against a storage snapshot. -/
def applyEvent (wiki : Wiki) (objs : List SObj) (e : Event) : List SObj :=
  match eventObj wiki e with
  | some o => objs ++ [o]
  | none => objs

theorem foldl_applyEvent (wiki : Wiki) (l : List Event) :
    ∀ objs, l.foldl (applyEvent wiki) objs = objs ++ l.filterMap (eventObj wiki) := by
  induction l with
  | nil => intro objs; simp
  | cons e t ih =>
    intro objs
    rw [List.foldl_cons, ih, List.filterMap_cons]
    unfold applyEvent
    cases eventObj wiki e <;> simp

/-- Any run of `handle_revision` only appends to the event trace; storage
afterwards is storage before plus exactly the objects of the appended put
events; and every put event recorded is for the run's own pageid, for a
nonzero revid, with a metadata value carrying that pageid and revid. -/
theorem handle_revision_events (wiki : Wiki) (remote : Remote) (pageid : Nat) :
    ∀ (fuel revid : Nat) (st : ArchSt),
      ∃ delta,
        ((handle_revision wiki remote fuel pageid revid st).1).events =
          st.events ++ delta ∧
        ((handle_revision wiki remote fuel pageid revid st).1).objects =
          st.objects ++ delta.filterMap (eventObj wiki) ∧
        (∀ p r m', Event.putMeta p r m' ∈ delta →
          p = pageid ∧ r ≠ 0 ∧ m'.pageid = p ∧ m'.revid = r) ∧
        (∀ p r c, Event.putContent p r c ∈ delta → p = pageid ∧ r ≠ 0) := by
  intro fuel
  induction fuel with
  | zero =>
    intro revid st
    rcases handle_prepare_cases wiki remote pageid revid st with
      ⟨h0, hp⟩ | ⟨h0, hm, hp⟩ | ⟨e, h0, hm, hp⟩ |
      ⟨par, m, h0, hm, hc, hmp, hmr, hmpar, hp⟩ |
      ⟨par, m, c, h0, hm, hc, hmp, hmr, hmpar, hp⟩
    · rw [handle_revision_halt wiki remote 0 pageid revid st st none hp]
      exact ⟨[], by simp, by simp, by simp, by simp⟩
    · rw [handle_revision_halt wiki remote 0 pageid revid st _ none hp]
      exact ⟨_, rfl, by simp [eventObj], by simp, by simp⟩
    · rw [handle_revision_halt wiki remote 0 pageid revid st _ (some e) hp]
      exact ⟨_, rfl, by simp [eventObj], by simp, by simp⟩
    · rw [handle_revision_recur_zero wiki remote pageid revid st _ par m hp]
      exact ⟨_, rfl, by simp [eventObj], by simp, by simp⟩
    · rw [handle_revision_recur_zero wiki remote pageid revid st _ par m hp]
      refine ⟨_, rfl, by simp [eventObj], by simp, ?_⟩
      intro p r c' hin
      simp at hin
      exact ⟨hin.1, hin.2.1 ▸ h0⟩
  | succ fuel ih =>
    intro revid st
    rcases handle_prepare_cases wiki remote pageid revid st with
      ⟨h0, hp⟩ | ⟨h0, hm, hp⟩ | ⟨e, h0, hm, hp⟩ |
      ⟨par, m, h0, hm, hc, hmp, hmr, hmpar, hp⟩ |
      ⟨par, m, c, h0, hm, hc, hmp, hmr, hmpar, hp⟩
    · rw [handle_revision_halt wiki remote (fuel + 1) pageid revid st st none hp]
      exact ⟨[], by simp, by simp, by simp, by simp⟩
    · rw [handle_revision_halt wiki remote (fuel + 1) pageid revid st _ none hp]
      exact ⟨_, rfl, by simp [eventObj], by simp, by simp⟩
    · rw [handle_revision_halt wiki remote (fuel + 1) pageid revid st _ (some e) hp]
      exact ⟨_, rfl, by simp [eventObj], by simp, by simp⟩
    · -- recur, content already present
      rw [handle_revision_recur_succ wiki remote fuel pageid revid st _ par m hp]
      obtain ⟨d2, he2, ho2, hpm2, hpc2⟩ := ih par
        ({ st with events := st.events ++
            [.head wiki.s3_bucket (s3_key_for_revision_metadata wiki pageid revid),
             .head wiki.s3_bucket (s3_key_for_revision_content wiki pageid revid),
             .fetch revid false] })
      rcases hrec : handle_revision wiki remote fuel pageid par
          ({ st with events := st.events ++
              [.head wiki.s3_bucket (s3_key_for_revision_metadata wiki pageid revid),
               .head wiki.s3_bucket (s3_key_for_revision_content wiki pageid revid),
               .fetch revid false] }) with ⟨st2, e2⟩
      rw [hrec] at he2 ho2
      dsimp only at he2 ho2
      cases e2 with
      | some e =>
        refine ⟨[.head wiki.s3_bucket (s3_key_for_revision_metadata wiki pageid revid),
                 .head wiki.s3_bucket (s3_key_for_revision_content wiki pageid revid),
                 .fetch revid false] ++ d2, ?_, ?_, ?_, ?_⟩
        · simpa [List.append_assoc] using he2
        · simpa [eventObj, List.append_assoc] using ho2
        · intro p r m' hin
          simp only [List.mem_append] at hin
          rcases hin with hin | hin
          · simp at hin
          · exact hpm2 p r m' hin
        · intro p r c' hin
          simp only [List.mem_append] at hin
          rcases hin with hin | hin
          · simp at hin
          · exact hpc2 p r c' hin
      | none =>
        refine ⟨[.head wiki.s3_bucket (s3_key_for_revision_metadata wiki pageid revid),
                 .head wiki.s3_bucket (s3_key_for_revision_content wiki pageid revid),
                 .fetch revid false] ++ d2 ++ [.putMeta pageid revid m], ?_, ?_, ?_, ?_⟩
        · simp only [putMetaSt]
          simp [he2, List.append_assoc]
        · simp only [putMetaSt]
          simp [ho2, eventObj, List.append_assoc]
        · intro p r m' hin
          simp only [List.mem_append] at hin
          rcases hin with (hin | hin) | hin
          · simp at hin
          · exact hpm2 p r m' hin
          · simp at hin
            obtain ⟨hps, hrs, hms⟩ := hin
            subst hps; subst hrs; subst hms
            exact ⟨rfl, h0, hmp, hmr⟩
        · intro p r c' hin
          simp only [List.mem_append] at hin
          rcases hin with (hin | hin) | hin
          · simp at hin
          · exact hpc2 p r c' hin
          · simp at hin
    · -- recur, content fetched and written
      rw [handle_revision_recur_succ wiki remote fuel pageid revid st _ par m hp]
      obtain ⟨d2, he2, ho2, hpm2, hpc2⟩ := ih par
        ({ objects := st.objects ++
            [(wiki.s3_bucket, s3_key_for_revision_content wiki pageid revid, .content c)],
           events := st.events ++
            [.head wiki.s3_bucket (s3_key_for_revision_metadata wiki pageid revid),
             .head wiki.s3_bucket (s3_key_for_revision_content wiki pageid revid),
             .fetch revid true,
             .putContent pageid revid c] })
      rcases hrec : handle_revision wiki remote fuel pageid par
          ({ objects := st.objects ++
              [(wiki.s3_bucket, s3_key_for_revision_content wiki pageid revid, .content c)],
             events := st.events ++
              [.head wiki.s3_bucket (s3_key_for_revision_metadata wiki pageid revid),
               .head wiki.s3_bucket (s3_key_for_revision_content wiki pageid revid),
               .fetch revid true,
               .putContent pageid revid c] }) with ⟨st2, e2⟩
      rw [hrec] at he2 ho2
      dsimp only at he2 ho2
      cases e2 with
      | some e =>
        refine ⟨[.head wiki.s3_bucket (s3_key_for_revision_metadata wiki pageid revid),
                 .head wiki.s3_bucket (s3_key_for_revision_content wiki pageid revid),
                 .fetch revid true, .putContent pageid revid c] ++ d2, ?_, ?_, ?_, ?_⟩
        · simpa [List.append_assoc] using he2
        · simpa [eventObj, List.append_assoc] using ho2
        · intro p r m' hin
          simp only [List.mem_append] at hin
          rcases hin with hin | hin
          · simp at hin
          · exact hpm2 p r m' hin
        · intro p r c' hin
          simp only [List.mem_append] at hin
          rcases hin with hin | hin
          · simp at hin
            exact ⟨hin.1, hin.2.1 ▸ h0⟩
          · exact hpc2 p r c' hin
      | none =>
        refine ⟨[.head wiki.s3_bucket (s3_key_for_revision_metadata wiki pageid revid),
                 .head wiki.s3_bucket (s3_key_for_revision_content wiki pageid revid),
                 .fetch revid true, .putContent pageid revid c] ++ d2 ++
                   [.putMeta pageid revid m], ?_, ?_, ?_, ?_⟩
        · simp only [putMetaSt]
          simp [he2, List.append_assoc]
        · simp only [putMetaSt]
          simp [ho2, eventObj, List.append_assoc]
        · intro p r m' hin
          simp only [List.mem_append] at hin
          rcases hin with (hin | hin) | hin
          · simp at hin
          · exact hpm2 p r m' hin
          · simp at hin
            obtain ⟨hps, hrs, hms⟩ := hin
            subst hps; subst hrs; subst hms
            exact ⟨rfl, h0, hmp, hmr⟩
        · intro p r c' hin
          simp only [List.mem_append] at hin
          rcases hin with (hin | hin) | hin
          · simp at hin
            exact ⟨hin.1, hin.2.1 ▸ h0⟩
          · exact hpc2 p r c' hin
          · simp at hin

/-- Monotonicity of the existence probe under later writes. -/
theorem s3_key_exists_mono (l1 l2 : List SObj) (b k : String)
    (h : s3_key_exists l1 b k = true) : s3_key_exists (l1 ++ l2) b k = true := by
  simp [s3_key_exists_append, h]

/-- After a successful run on a nonzero revid, the revision's metadata object
exists in storage: either it was already there (memoization hit) or the run's
final action wrote it. -/
theorem handle_revision_meta_after (wiki : Wiki) (remote : Remote)
    (fuel pageid revid : Nat) (st st' : ArchSt)
    (h : handle_revision wiki remote fuel pageid revid st = (st', none)) :
    revid = 0 ∨ s3_key_exists st'.objects wiki.s3_bucket
      (s3_key_for_revision_metadata wiki pageid revid) = true := by
  rcases handle_prepare_cases wiki remote pageid revid st with
    ⟨h0, hp⟩ | ⟨h0, hm, hp⟩ | ⟨e, h0, hm, hp⟩ |
    ⟨par, m, h0, hm, hc, hmp, hmr, hmpar, hp⟩ |
    ⟨par, m, c, h0, hm, hc, hmp, hmr, hmpar, hp⟩
  · exact Or.inl h0
  · rw [handle_revision_halt wiki remote fuel pageid revid st _ none hp] at h
    injection h with h1 h2
    subst h1
    exact Or.inr hm
  · rw [handle_revision_halt wiki remote fuel pageid revid st _ (some e) hp] at h
    injection h with h1 h2
    exact absurd h2 (by simp)
  · cases fuel with
    | zero =>
      rw [handle_revision_recur_zero wiki remote pageid revid st _ par m hp] at h
      injection h with h1 h2
      exact absurd h2 (by simp)
    | succ fuel =>
      rw [handle_revision_recur_succ wiki remote fuel pageid revid st _ par m hp] at h
      rcases hrec : handle_revision wiki remote fuel pageid par _ with ⟨st2, e2⟩
      rw [hrec] at h
      cases e2 with
      | some e =>
        injection h with h1 h2
        exact absurd h2 (by simp)
      | none =>
        injection h with h1 h2
        subst h1
        exact Or.inr (by simp [putMetaSt, s3_key_exists_last])
  · cases fuel with
    | zero =>
      rw [handle_revision_recur_zero wiki remote pageid revid st _ par m hp] at h
      injection h with h1 h2
      exact absurd h2 (by simp)
    | succ fuel =>
      rw [handle_revision_recur_succ wiki remote fuel pageid revid st _ par m hp] at h
      rcases hrec : handle_revision wiki remote fuel pageid par _ with ⟨st2, e2⟩
      rw [hrec] at h
      cases e2 with
      | some e =>
        injection h with h1 h2
        exact absurd h2 (by simp)
      | none =>
        injection h with h1 h2
        subst h1
        exact Or.inr (by simp [putMetaSt, s3_key_exists_last])

/-- When the content object for (pageid, rv0) already exists, no run ever
records a content write for (pageid, rv0): the `need_content` flag gates the
fetch-and-store of content, and content objects are never deleted. -/
theorem handle_revision_no_putContent (wiki : Wiki) (remote : Remote)
    (pageid rv0 : Nat) :
    ∀ (fuel revid : Nat) (st : ArchSt),
      s3_key_exists st.objects wiki.s3_bucket
        (s3_key_for_revision_content wiki pageid rv0) = true →
      ∀ delta, ((handle_revision wiki remote fuel pageid revid st).1).events =
          st.events ++ delta →
      ∀ c, Event.putContent pageid rv0 c ∉ delta := by
  intro fuel
  induction fuel with
  | zero =>
    intro revid st hex delta hdelta c hin
    rcases handle_prepare_cases wiki remote pageid revid st with
      ⟨h0, hp⟩ | ⟨h0, hm, hp⟩ | ⟨e, h0, hm, hp⟩ |
      ⟨par, m, h0, hm, hc, hmp, hmr, hmpar, hp⟩ |
      ⟨par, m, c', h0, hm, hc, hmp, hmr, hmpar, hp⟩
    · rw [handle_revision_halt wiki remote 0 pageid revid st st none hp] at hdelta
      dsimp at hdelta
      obtain rfl := List.append_cancel_left (by simpa using hdelta.symm : st.events ++ delta = st.events ++ [])
      simp at hin
    · rw [handle_revision_halt wiki remote 0 pageid revid st _ none hp] at hdelta
      dsimp at hdelta
      obtain rfl := List.append_cancel_left hdelta.symm
      simp at hin
    · rw [handle_revision_halt wiki remote 0 pageid revid st _ (some e) hp] at hdelta
      dsimp at hdelta
      obtain rfl := List.append_cancel_left hdelta.symm
      simp at hin
    · rw [handle_revision_recur_zero wiki remote pageid revid st _ par m hp] at hdelta
      dsimp at hdelta
      obtain rfl := List.append_cancel_left hdelta.symm
      simp at hin
    · rw [handle_revision_recur_zero wiki remote pageid revid st _ par m hp] at hdelta
      dsimp at hdelta
      obtain rfl := List.append_cancel_left hdelta.symm
      have hrv : revid ≠ rv0 := by
        intro hrr
        rw [hrr] at hc
        rw [hex] at hc
        exact absurd hc (by simp)
      simp at hin
      exact hrv hin.1.symm
  | succ fuel ih =>
    intro revid st hex delta hdelta c hin
    rcases handle_prepare_cases wiki remote pageid revid st with
      ⟨h0, hp⟩ | ⟨h0, hm, hp⟩ | ⟨e, h0, hm, hp⟩ |
      ⟨par, m, h0, hm, hc, hmp, hmr, hmpar, hp⟩ |
      ⟨par, m, c', h0, hm, hc, hmp, hmr, hmpar, hp⟩
    · rw [handle_revision_halt wiki remote (fuel + 1) pageid revid st st none hp] at hdelta
      dsimp at hdelta
      obtain rfl := List.append_cancel_left (by simpa using hdelta.symm : st.events ++ delta = st.events ++ [])
      simp at hin
    · rw [handle_revision_halt wiki remote (fuel + 1) pageid revid st _ none hp] at hdelta
      dsimp at hdelta
      obtain rfl := List.append_cancel_left hdelta.symm
      simp at hin
    · rw [handle_revision_halt wiki remote (fuel + 1) pageid revid st _ (some e) hp] at hdelta
      dsimp at hdelta
      obtain rfl := List.append_cancel_left hdelta.symm
      simp at hin
    · -- recur, content already present: the inner state st1 keeps st.objects
      rw [handle_revision_recur_succ wiki remote fuel pageid revid st _ par m hp] at hdelta
      obtain ⟨d2, he2, -, -, -⟩ := handle_revision_events wiki remote pageid fuel par
        ({ st with events := st.events ++
            [.head wiki.s3_bucket (s3_key_for_revision_metadata wiki pageid revid),
             .head wiki.s3_bucket (s3_key_for_revision_content wiki pageid revid),
             .fetch revid false] })
      have hnc := ih par
        ({ st with events := st.events ++
            [.head wiki.s3_bucket (s3_key_for_revision_metadata wiki pageid revid),
             .head wiki.s3_bucket (s3_key_for_revision_content wiki pageid revid),
             .fetch revid false] })
        (by simpa using hex) d2 he2 c
      rcases hrec : handle_revision wiki remote fuel pageid par
          ({ st with events := st.events ++
              [.head wiki.s3_bucket (s3_key_for_revision_metadata wiki pageid revid),
               .head wiki.s3_bucket (s3_key_for_revision_content wiki pageid revid),
               .fetch revid false] }) with ⟨st2, e2⟩
      rw [hrec] at hdelta he2
      dsimp only at he2
      cases e2 with
      | some e =>
        dsimp at hdelta
        rw [he2] at hdelta
        rw [List.append_assoc] at hdelta
        obtain rfl := List.append_cancel_left hdelta.symm
        simp only [List.mem_append] at hin
        rcases hin with hin | hin
        · simp at hin
        · exact hnc hin
      | none =>
        dsimp [putMetaSt] at hdelta
        rw [he2] at hdelta
        rw [List.append_assoc, List.append_assoc] at hdelta
        obtain rfl := List.append_cancel_left hdelta.symm
        simp only [List.mem_append] at hin
        rcases hin with hin | hin | hin
        · simp at hin
        · exact hnc hin
        · simp at hin
    · -- recur, content fetched and written for this revid (≠ rv0)
      rw [handle_revision_recur_succ wiki remote fuel pageid revid st _ par m hp] at hdelta
      have hrv : revid ≠ rv0 := by
        intro hrr
        rw [hrr] at hc
        rw [hex] at hc
        exact absurd hc (by simp)
      obtain ⟨d2, he2, -, -, -⟩ := handle_revision_events wiki remote pageid fuel par
        ({ objects := st.objects ++
            [(wiki.s3_bucket, s3_key_for_revision_content wiki pageid revid, .content c')],
           events := st.events ++
            [.head wiki.s3_bucket (s3_key_for_revision_metadata wiki pageid revid),
             .head wiki.s3_bucket (s3_key_for_revision_content wiki pageid revid),
             .fetch revid true,
             .putContent pageid revid c'] })
      have hnc := ih par
        ({ objects := st.objects ++
            [(wiki.s3_bucket, s3_key_for_revision_content wiki pageid revid, .content c')],
           events := st.events ++
            [.head wiki.s3_bucket (s3_key_for_revision_metadata wiki pageid revid),
             .head wiki.s3_bucket (s3_key_for_revision_content wiki pageid revid),
             .fetch revid true,
             .putContent pageid revid c'] })
        (by simpa using s3_key_exists_mono _ _ _ _ hex) d2 he2 c
      rcases hrec : handle_revision wiki remote fuel pageid par
          ({ objects := st.objects ++
              [(wiki.s3_bucket, s3_key_for_revision_content wiki pageid revid, .content c')],
             events := st.events ++
              [.head wiki.s3_bucket (s3_key_for_revision_metadata wiki pageid revid),
               .head wiki.s3_bucket (s3_key_for_revision_content wiki pageid revid),
               .fetch revid true,
               .putContent pageid revid c'] }) with ⟨st2, e2⟩
      rw [hrec] at hdelta he2
      dsimp only at he2
      cases e2 with
      | some e =>
        dsimp at hdelta
        rw [he2] at hdelta
        rw [List.append_assoc] at hdelta
        obtain rfl := List.append_cancel_left hdelta.symm
        simp only [List.mem_append] at hin
        rcases hin with hin | hin
        · simp at hin
          exact hrv hin.1.symm
        · exact hnc hin
      | none =>
        dsimp [putMetaSt] at hdelta
        rw [he2] at hdelta
        rw [List.append_assoc, List.append_assoc] at hdelta
        obtain rfl := List.append_cancel_left hdelta.symm
        simp only [List.mem_append] at hin
        rcases hin with hin | hin | hin
        · simp at hin
          exact hrv hin.1.symm
        · exact hnc hin
        · simp at hin

/-! ## Write ordering -/

/-- Walking an event trace while replaying storage: every metadata write for
(pageid, rv) happens at a moment when the parent's metadata object is already
in storage (or the parent is the root sentinel 0).  This is the
crash-consistency invariant stated in the docstring of `handle_revision`. -/
def writesOrdered (wiki : Wiki) (pageid : Nat) : List SObj → List Event → Prop
  | _, [] => True
  | objs, e :: rest =>
    (∀ rv m, e = Event.putMeta pageid rv m →
      m.parentid = 0 ∨ s3_key_exists objs wiki.s3_bucket
        (s3_key_for_revision_metadata wiki pageid m.parentid) = true) ∧
    writesOrdered wiki pageid (applyEvent wiki objs e) rest

/-- Once a metadata write appears in the trace, every later event is also a
metadata write.  (In particular every content write precedes every metadata
write, hence its own revision's metadata write.) -/
def onlyMetaAfterMeta : List Event → Prop
  | [] => True
  | Event.putMeta _ _ _ :: rest =>
    (∀ e ∈ rest, ∃ p r m, e = Event.putMeta p r m) ∧ onlyMetaAfterMeta rest
  | _ :: rest => onlyMetaAfterMeta rest

theorem writesOrdered_append (wiki : Wiki) (pageid : Nat) (l1 l2 : List Event) :
    ∀ objs, writesOrdered wiki pageid objs l1 →
      writesOrdered wiki pageid (objs ++ l1.filterMap (eventObj wiki)) l2 →
      writesOrdered wiki pageid objs (l1 ++ l2) := by
  induction l1 with
  | nil =>
    intro objs _ h2
    simpa using h2
  | cons e t ih =>
    intro objs h1 h2
    obtain ⟨hcond, hrest⟩ := h1
    refine ⟨hcond, ?_⟩
    apply ih
    · exact hrest
    · have harr : applyEvent wiki objs e ++ t.filterMap (eventObj wiki) =
          objs ++ (e :: t).filterMap (eventObj wiki) := by
        unfold applyEvent
        rw [List.filterMap_cons]
        cases eventObj wiki e <;> simp
      rw [harr]
      exact h2

theorem writesOrdered_of_no_putMeta (wiki : Wiki) (pageid : Nat) (l : List Event)
    (h : ∀ p r m, Event.putMeta p r m ∉ l) :
    ∀ objs, writesOrdered wiki pageid objs l := by
  induction l with
  | nil => intro objs; trivial
  | cons e t ih =>
    intro objs
    refine ⟨?_, ?_⟩
    · intro rv m he
      subst he
      exact absurd (List.mem_cons_self _ _) (h pageid rv m)
    · exact ih (fun p r m hmem => h p r m (List.mem_cons_of_mem e hmem)) _

theorem onlyMetaAfterMeta_of_no_putMeta (l : List Event)
    (h : ∀ p r m, Event.putMeta p r m ∉ l) : onlyMetaAfterMeta l := by
  induction l with
  | nil => trivial
  | cons e t ih =>
    have ht : ∀ p r m, Event.putMeta p r m ∉ t :=
      fun p r m hmem => h p r m (List.mem_cons_of_mem e hmem)
    cases e with
    | putMeta p r m => exact absurd (List.mem_cons_self _ _) (h p r m)
    | head b k => exact ih ht
    | fetch rv w => exact ih ht
    | putContent pp rr cc => exact ih ht

theorem onlyMetaAfterMeta_append (l1 l2 : List Event)
    (h1 : ∀ p r m, Event.putMeta p r m ∉ l1) (h2 : onlyMetaAfterMeta l2) :
    onlyMetaAfterMeta (l1 ++ l2) := by
  induction l1 with
  | nil => simpa using h2
  | cons e t ih =>
    have ht : ∀ p r m, Event.putMeta p r m ∉ t :=
      fun p r m hmem => h1 p r m (List.mem_cons_of_mem e hmem)
    cases e with
    | putMeta p r m => exact absurd (List.mem_cons_self _ _) (h1 p r m)
    | head b k => exact ih ht
    | fetch rv w => exact ih ht
    | putContent pp rr cc => exact ih ht

theorem onlyMetaAfterMeta_snoc_putMeta (l : List Event) (h : onlyMetaAfterMeta l)
    (p r : Nat) (m : Metadata) :
    onlyMetaAfterMeta (l ++ [Event.putMeta p r m]) := by
  induction l with
  | nil => exact ⟨by simp, trivial⟩
  | cons e t ih =>
    cases e with
    | putMeta p0 r0 m0 =>
      obtain ⟨hall, hrest⟩ := h
      refine ⟨?_, ih hrest⟩
      intro x hx
      rcases List.mem_append.mp hx with hx | hx
      · exact hall x hx
      · exact ⟨p, r, m, by simpa using hx⟩
    | head b k => exact ih h
    | fetch rv w => exact ih h
    | putContent pp rr cc => exact ih h

theorem onlyMetaAfterMeta_suffix :
    ∀ (l1 l : List Event), onlyMetaAfterMeta l →
      ∀ p r m l2, l = l1 ++ Event.putMeta p r m :: l2 →
      ∀ e ∈ l2, ∃ p' r' m', e = Event.putMeta p' r' m' := by
  intro l1
  induction l1 with
  | nil =>
    intro l h p r m l2 hl e he
    subst hl
    obtain ⟨hall, -⟩ := h
    exact hall e he
  | cons e0 t ih =>
    intro l h p r m l2 hl e he
    subst hl
    cases e0 with
    | putMeta p0 r0 m0 =>
      obtain ⟨hall, -⟩ := h
      exact hall e (List.mem_append_right _ (List.mem_cons_of_mem _ he))
    | head b k => exact ih (t ++ Event.putMeta p r m :: l2) h p r m l2 rfl e he
    | fetch rv w => exact ih (t ++ Event.putMeta p r m :: l2) h p r m l2 rfl e he
    | putContent pp rr cc =>
      exact ih (t ++ Event.putMeta p r m :: l2) h p r m l2 rfl e he

/-- Every successful run appends a trace in which each metadata write
happens only after the parent's metadata is in storage, and in which nothing
but metadata writes follows a metadata write. -/
theorem handle_revision_ordered (wiki : Wiki) (remote : Remote) (pageid : Nat) :
    ∀ (fuel revid : Nat) (st st' : ArchSt),
      handle_revision wiki remote fuel pageid revid st = (st', none) →
      ∃ delta, st'.events = st.events ++ delta ∧
        st'.objects = st.objects ++ delta.filterMap (eventObj wiki) ∧
        writesOrdered wiki pageid st.objects delta ∧
        onlyMetaAfterMeta delta := by
  intro fuel
  induction fuel with
  | zero =>
    intro revid st st' h
    rcases handle_prepare_cases wiki remote pageid revid st with
      ⟨h0, hp⟩ | ⟨h0, hm, hp⟩ | ⟨e, h0, hm, hp⟩ |
      ⟨par, m, h0, hm, hc, hmp, hmr, hmpar, hp⟩ |
      ⟨par, m, c, h0, hm, hc, hmp, hmr, hmpar, hp⟩
    · rw [handle_revision_halt wiki remote 0 pageid revid st st none hp] at h
      injection h with h1 h2
      subst h1
      exact ⟨[], by simp, by simp, trivial, trivial⟩
    · rw [handle_revision_halt wiki remote 0 pageid revid st _ none hp] at h
      injection h with h1 h2
      subst h1
      refine ⟨_, rfl, by simp [eventObj], ?_, ?_⟩
      · exact writesOrdered_of_no_putMeta wiki pageid _ (by simp) _
      · exact onlyMetaAfterMeta_of_no_putMeta _ (by simp)
    · rw [handle_revision_halt wiki remote 0 pageid revid st _ (some e) hp] at h
      injection h with h1 h2
      exact absurd h2 (by simp)
    · rw [handle_revision_recur_zero wiki remote pageid revid st _ par m hp] at h
      injection h with h1 h2
      exact absurd h2 (by simp)
    · rw [handle_revision_recur_zero wiki remote pageid revid st _ par m hp] at h
      injection h with h1 h2
      exact absurd h2 (by simp)
  | succ fuel ih =>
    intro revid st st' h
    rcases handle_prepare_cases wiki remote pageid revid st with
      ⟨h0, hp⟩ | ⟨h0, hm, hp⟩ | ⟨e, h0, hm, hp⟩ |
      ⟨par, m, h0, hm, hc, hmp, hmr, hmpar, hp⟩ |
      ⟨par, m, c, h0, hm, hc, hmp, hmr, hmpar, hp⟩
    · rw [handle_revision_halt wiki remote (fuel + 1) pageid revid st st none hp] at h
      injection h with h1 h2
      subst h1
      exact ⟨[], by simp, by simp, trivial, trivial⟩
    · rw [handle_revision_halt wiki remote (fuel + 1) pageid revid st _ none hp] at h
      injection h with h1 h2
      subst h1
      refine ⟨_, rfl, by simp [eventObj], ?_, ?_⟩
      · exact writesOrdered_of_no_putMeta wiki pageid _ (by simp) _
      · exact onlyMetaAfterMeta_of_no_putMeta _ (by simp)
    · rw [handle_revision_halt wiki remote (fuel + 1) pageid revid st _ (some e) hp] at h
      injection h with h1 h2
      exact absurd h2 (by simp)
    · -- recur, content already present
      rw [handle_revision_recur_succ wiki remote fuel pageid revid st _ par m hp] at h
      rcases hrec : handle_revision wiki remote fuel pageid par
          ({ st with events := st.events ++
              [.head wiki.s3_bucket (s3_key_for_revision_metadata wiki pageid revid),
               .head wiki.s3_bucket (s3_key_for_revision_content wiki pageid revid),
               .fetch revid false] }) with ⟨st2, e2⟩
      rw [hrec] at h
      cases e2 with
      | some e =>
        injection h with h1 h2
        exact absurd h2 (by simp)
      | none =>
        injection h with h1 h2
        subst h1
        obtain ⟨d2, he2, ho2, hw2, homa2⟩ := ih par _ _ hrec
        dsimp only at he2 ho2
        have hparent := handle_revision_meta_after wiki remote fuel pageid par _ _ hrec
        refine ⟨[.head wiki.s3_bucket (s3_key_for_revision_metadata wiki pageid revid),
                 .head wiki.s3_bucket (s3_key_for_revision_content wiki pageid revid),
                 .fetch revid false] ++ (d2 ++ [Event.putMeta pageid revid m]),
                ?_, ?_, ?_, ?_⟩
        · simp only [putMetaSt]
          simp [he2, List.append_assoc]
        · simp only [putMetaSt]
          simp [ho2, eventObj, List.append_assoc]
        · apply writesOrdered_append
          · exact writesOrdered_of_no_putMeta wiki pageid _ (by simp) _
          · have hobjs : st.objects ++
                ([Event.head wiki.s3_bucket (s3_key_for_revision_metadata wiki pageid revid),
                  Event.head wiki.s3_bucket (s3_key_for_revision_content wiki pageid revid),
                  Event.fetch revid false].filterMap (eventObj wiki)) = st.objects := by
              simp [eventObj]
            rw [hobjs]
            apply writesOrdered_append
            · exact hw2
            · refine ⟨?_, trivial⟩
              intro rv' m' heq
              injection heq with hq1 hq2 hq3
              subst hq3
              rw [hmpar]
              rcases hparent with hz | hex
              · exact Or.inl hz
              · right
                rw [ho2] at hex
                exact hex
        · apply onlyMetaAfterMeta_append
          · simp
          · exact onlyMetaAfterMeta_snoc_putMeta d2 homa2 pageid revid m
    · -- recur, content fetched and written
      rw [handle_revision_recur_succ wiki remote fuel pageid revid st _ par m hp] at h
      rcases hrec : handle_revision wiki remote fuel pageid par
          ({ objects := st.objects ++
              [(wiki.s3_bucket, s3_key_for_revision_content wiki pageid revid, .content c)],
             events := st.events ++
              [.head wiki.s3_bucket (s3_key_for_revision_metadata wiki pageid revid),
               .head wiki.s3_bucket (s3_key_for_revision_content wiki pageid revid),
               .fetch revid true,
               .putContent pageid revid c] }) with ⟨st2, e2⟩
      rw [hrec] at h
      cases e2 with
      | some e =>
        injection h with h1 h2
        exact absurd h2 (by simp)
      | none =>
        injection h with h1 h2
        subst h1
        obtain ⟨d2, he2, ho2, hw2, homa2⟩ := ih par _ _ hrec
        dsimp only at he2 ho2
        have hparent := handle_revision_meta_after wiki remote fuel pageid par _ _ hrec
        refine ⟨[.head wiki.s3_bucket (s3_key_for_revision_metadata wiki pageid revid),
                 .head wiki.s3_bucket (s3_key_for_revision_content wiki pageid revid),
                 .fetch revid true, .putContent pageid revid c] ++
                   (d2 ++ [Event.putMeta pageid revid m]),
                ?_, ?_, ?_, ?_⟩
        · simp only [putMetaSt]
          simp [he2, List.append_assoc]
        · simp only [putMetaSt]
          simp [ho2, eventObj, List.append_assoc]
        · apply writesOrdered_append
          · exact writesOrdered_of_no_putMeta wiki pageid _ (by simp) _
          · have hobjs : st.objects ++
                ([Event.head wiki.s3_bucket (s3_key_for_revision_metadata wiki pageid revid),
                  Event.head wiki.s3_bucket (s3_key_for_revision_content wiki pageid revid),
                  Event.fetch revid true,
                  Event.putContent pageid revid c].filterMap (eventObj wiki)) =
                st.objects ++
                  [(wiki.s3_bucket, s3_key_for_revision_content wiki pageid revid,
                    SVal.content c)] := by
              simp [eventObj]
            rw [hobjs]
            apply writesOrdered_append
            · exact hw2
            · refine ⟨?_, trivial⟩
              intro rv' m' heq
              injection heq with hq1 hq2 hq3
              subst hq3
              rw [hmpar]
              rcases hparent with hz | hex
              · exact Or.inl hz
              · right
                rw [ho2] at hex
                exact hex
        · apply onlyMetaAfterMeta_append
          · simp
          · exact onlyMetaAfterMeta_snoc_putMeta d2 homa2 pageid revid m

/-! ## Key membership in the continuation parameter dict -/

/-- Python `k in d`. -/
def hasKey {α : Type} (d : List (String × α)) (k : String) : Bool :=
  d.any (fun p => p.1 == k)

theorem any_key_map_replace (d : Dict) (k v k' : String) :
    (d.map (fun p => if p.1 == k then (k, v) else p)).any (fun p => p.1 == k') =
      d.any (fun p => p.1 == k') := by
  induction d with
  | nil => rfl
  | cons p t ihh =>
    simp only [List.map_cons, List.any_cons, ihh]
    congr 1
    split
    case isTrue h =>
      rw [eq_of_beq h]
    case isFalse h => rfl

theorem dictInsert_ne_nil (d : Dict) (k v : String) : dictInsert d k v ≠ [] := by
  unfold dictInsert
  split
  case isTrue h =>
    intro hnil
    rw [List.map_eq_nil_iff] at hnil
    subst hnil
    simp [List.any_nil] at h
  case isFalse h =>
    simp

theorem hasKey_dictInsert (d : Dict) (k v k' : String) :
    hasKey (dictInsert d k v) k' = (hasKey d k' || (k == k')) := by
  unfold dictInsert hasKey
  split
  case isTrue h =>
    rw [any_key_map_replace]
    by_cases hk : (k == k') = true
    · have hk' := eq_of_beq hk
      subst hk'
      simp [h]
    · have hkf : (k == k') = false := by
        cases hkk : (k == k') with
        | true => exact absurd hkk hk
        | false => rfl
      simp [hkf]
  case isFalse h =>
    simp [List.any_append]

theorem hasKey_dictUpdate (src : Dict) :
    ∀ (d : Dict) (k' : String),
      hasKey (dictUpdate d src) k' =
        (hasKey d k' || src.any (fun p => p.1 == k')) := by
  induction src with
  | nil => intro d k'; simp [dictUpdate]
  | cons p t ihh =>
    intro d k'
    unfold dictUpdate at *
    simp only [List.foldl_cons, List.any_cons]
    rw [ihh, hasKey_dictInsert]
    rw [Bool.or_assoc]

theorem hasKey_foldl_nonG (l : Dict) :
    ∀ (acc : Dict) (k' : String),
      hasKey (l.foldl (fun a2 p2 =>
          if startsWithG p2.1 then a2 else dictInsert a2 p2.1 p2.2) acc) k' =
        (hasKey acc k' || l.any (fun p => !startsWithG p.1 && p.1 == k')) := by
  induction l with
  | nil => intro acc k'; simp
  | cons p t ihh =>
    intro acc k'
    simp only [List.foldl_cons, List.any_cons]
    by_cases hg : startsWithG p.1
    · simp [hg, ihh]
    · simp only [Bool.not_eq_true] at hg
      simp [hg, ihh, hasKey_dictInsert, Bool.or_assoc]

theorem hasKey_phase1 (qc : List (String × Dict)) :
    ∀ (acc : Dict) (k' : String),
      hasKey (qc.foldl (fun a p1 => p1.2.foldl (fun a2 p2 =>
          if startsWithG p2.1 then a2 else dictInsert a2 p2.1 p2.2) a) acc) k' =
        (hasKey acc k' ||
          qc.any (fun p1 => p1.2.any (fun p2 => !startsWithG p2.1 && p2.1 == k'))) := by
  induction qc with
  | nil => intro acc k'; simp
  | cons p1 t ihh =>
    intro acc k'
    simp only [List.foldl_cons, List.any_cons]
    rw [ihh, hasKey_foldl_nonG, Bool.or_assoc]

theorem hasKey_fallback (qc : List (String × Dict)) :
    ∀ (acc : Dict) (k' : String),
      hasKey (qc.foldl (fun a p1 => dictUpdate a p1.2) acc) k' =
        (hasKey acc k' || qc.any (fun p1 => p1.2.any (fun p2 => p2.1 == k'))) := by
  induction qc with
  | nil => intro acc k'; simp
  | cons p1 t ihh =>
    intro acc k'
    simp only [List.foldl_cons, List.any_cons]
    rw [ihh, hasKey_dictUpdate, Bool.or_assoc]

theorem foldl_nonG_eq_nil (l : Dict) :
    ∀ acc, (l.foldl (fun a2 p2 =>
        if startsWithG p2.1 then a2 else dictInsert a2 p2.1 p2.2) acc = []) ↔
      (acc = [] ∧ l.all (fun p => startsWithG p.1)) := by
  induction l with
  | nil => intro acc; simp
  | cons p t ihh =>
    intro acc
    simp only [List.foldl_cons, List.all_cons]
    by_cases hg : startsWithG p.1
    · simp [hg, ihh]
    · simp only [Bool.not_eq_true] at hg
      simp [hg, ihh, dictInsert_ne_nil]

theorem phase1_eq_nil (qc : List (String × Dict)) :
    ∀ acc, (qc.foldl (fun a p1 => p1.2.foldl (fun a2 p2 =>
        if startsWithG p2.1 then a2 else dictInsert a2 p2.1 p2.2) a) acc = []) ↔
      (acc = [] ∧ qc.all (fun p1 => p1.2.all (fun p2 => startsWithG p2.1))) := by
  induction qc with
  | nil => intro acc; simp
  | cons p1 t ihh =>
    intro acc
    simp only [List.foldl_cons, List.all_cons]
    rw [ihh, foldl_nonG_eq_nil]
    simp [and_assoc]

/-- Characterization of the keys of the continuation parameters computed by
`mwapi_query`: a key is selected iff it occurs as a second-level key of the
`query-continue` block and either it does not carry the generator marker g,
or every second-level key of the block carries it (the fallback). -/
theorem hasKey_continueParamsOf (qc : List (String × Dict)) (k : String) :
    hasKey (continueParamsOf qc) k = true ↔
      ((∃ p1 ∈ qc, ∃ p2 ∈ p1.2, p2.1 = k) ∧
       (startsWithG k = false ∨
        ∀ p1 ∈ qc, ∀ p2 ∈ p1.2, startsWithG p2.1 = true)) := by
  unfold continueParamsOf
  by_cases hemp : (qc.foldl (fun acc p1 => p1.2.foldl (fun acc2 p2 =>
      if startsWithG p2.1 then acc2 else dictInsert acc2 p2.1 p2.2) acc) []) = []
  · have hall := ((phase1_eq_nil qc []).mp hemp).2
    rw [List.all_eq_true] at hall
    have hallg : ∀ p1 ∈ qc, ∀ p2 ∈ p1.2, startsWithG p2.1 = true := by
      intro p1 h1 p2 h2
      have hb := hall p1 h1
      rw [List.all_eq_true] at hb
      exact hb p2 h2
    simp only [hemp, List.isEmpty_nil, if_true]
    rw [hasKey_fallback]
    simp only [hasKey, List.any_nil, Bool.false_or]
    rw [List.any_eq_true]
    constructor
    · rintro ⟨p1, h1, hany⟩
      rw [List.any_eq_true] at hany
      obtain ⟨p2, h2, hbeq⟩ := hany
      exact ⟨⟨p1, h1, p2, h2, eq_of_beq hbeq⟩, Or.inr hallg⟩
    · rintro ⟨⟨p1, h1, p2, h2, hk⟩, -⟩
      exact ⟨p1, h1, List.any_eq_true.mpr ⟨p2, h2, by simp [hk]⟩⟩
  · have hnall : ¬ qc.all (fun p1 => p1.2.all (fun p2 => startsWithG p2.1)) = true := by
      intro hcon
      exact hemp ((phase1_eq_nil qc []).mpr ⟨rfl, hcon⟩)
    have hnallg : ¬ ∀ p1 ∈ qc, ∀ p2 ∈ p1.2, startsWithG p2.1 = true := by
      intro hcon
      apply hnall
      rw [List.all_eq_true]
      intro p1 h1
      rw [List.all_eq_true]
      intro p2 h2
      exact hcon p1 h1 p2 h2
    have hne : (qc.foldl (fun acc p1 => p1.2.foldl (fun acc2 p2 =>
        if startsWithG p2.1 then acc2 else dictInsert acc2 p2.1 p2.2) acc) []).isEmpty
        = false := by
      rcases hql : (qc.foldl (fun acc p1 => p1.2.foldl (fun acc2 p2 =>
          if startsWithG p2.1 then acc2 else dictInsert acc2 p2.1 p2.2) acc) []) with
        _ | ⟨p, t⟩
      · exact absurd hql hemp
      · rw [hql]; rfl
    simp only [hne, Bool.false_eq_true, if_false]
    rw [hasKey_phase1]
    simp only [hasKey, List.any_nil, Bool.false_or]
    rw [List.any_eq_true]
    constructor
    · rintro ⟨p1, h1, hany⟩
      rw [List.any_eq_true] at hany
      obtain ⟨p2, h2, hband⟩ := hany
      rw [Bool.and_eq_true] at hband
      obtain ⟨hng, hbeq⟩ := hband
      have hk := eq_of_beq hbeq
      refine ⟨⟨p1, h1, p2, h2, hk⟩, Or.inl ?_⟩
      rw [← hk]
      simpa using hng
    · rintro ⟨⟨p1, h1, p2, h2, hk⟩, hdisj⟩
      rcases hdisj with hgk | hcon
      · refine ⟨p1, h1, List.any_eq_true.mpr ⟨p2, h2, ?_⟩⟩
        rw [Bool.and_eq_true]
        refine ⟨?_, by simp [hk]⟩
        rw [hk]
        simp [hgk]
      · exact absurd hcon hnallg

/-! ## The four single-revid shape checks and the chain-closure invariant -/

/-- The four response-shape conditions of claim C5: not exactly one page, or
page id mismatch (including an absent page entry for the requested id), or
not exactly one revision, or revision id mismatch. -/
def singleRevViolation (pageid revid : Nat) (result : RawResult) : Bool :=
  match result.pages with
  | none => true
  | some pages =>
    match dictLookup pages (toString pageid) with
    | none => true
    | some page =>
      pages.length != 1 ||
      page.pageid != some pageid ||
      (match page.revisions with
       | none => true
       | some revs =>
         match revs with
         | [rev] => rev.revid != some revid
         | _ => true)

/-- A shape violation makes the validation chain fail with an
AssertionError (protocolError). -/
theorem singleRevViolation_validate (pageid revid : Nat) (result : RawResult)
    (h : singleRevViolation pageid revid result = true) :
    validate_response pageid revid result = .error .protocolError := by
  unfold validate_response
  repeat' split
  all_goals try rfl
  exfalso
  unfold singleRevViolation at h
  simp_all

/-- Every metadata object in storage (in the wiki's bucket) has its parent's
metadata object in storage too, or descends from the root sentinel.  This is
the crash-consistency property that justifies the memoization check. -/
def metaChainClosed (wiki : Wiki) (objs : List SObj) : Prop :=
  ∀ o ∈ objs, ∀ m, o.2.2 = SVal.meta m → o.1 = wiki.s3_bucket →
    m.parentid = 0 ∨
    s3_key_exists objs wiki.s3_bucket
      (s3_key_for_revision_metadata wiki m.pageid m.parentid) = true

/-- From `writesOrdered`: every metadata write in the trace has its parent's
metadata present once the whole trace has been replayed. -/
theorem writesOrdered_mem (wiki : Wiki) (pageid : Nat) :
    ∀ (l : List Event) (objs : List SObj), writesOrdered wiki pageid objs l →
      ∀ rv m, Event.putMeta pageid rv m ∈ l →
        m.parentid = 0 ∨
        s3_key_exists (objs ++ l.filterMap (eventObj wiki)) wiki.s3_bucket
          (s3_key_for_revision_metadata wiki pageid m.parentid) = true := by
  intro l
  induction l with
  | nil => intro objs _ rv m hmem; simp at hmem
  | cons e t ih =>
    intro objs hw rv m hmem
    obtain ⟨hcond, hrest⟩ := hw
    rcases List.mem_cons.mp hmem with heq | hmem'
    · rcases hcond rv m heq.symm with hz | hex
      · exact Or.inl hz
      · exact Or.inr (s3_key_exists_mono _ _ _ _ hex)
    · have harr : applyEvent wiki objs e ++ t.filterMap (eventObj wiki) =
          objs ++ (e :: t).filterMap (eventObj wiki) := by
        unfold applyEvent
        rw [List.filterMap_cons]
        cases eventObj wiki e <;> simp
      rcases ih (applyEvent wiki objs e) hrest rv m hmem' with hz | hex
      · exact Or.inl hz
      · right
        rw [harr] at hex
        exact hex

/-- A successful run preserves the chain-closure invariant of storage. -/
theorem handle_revision_closed (wiki : Wiki) (remote : Remote)
    (fuel pageid revid : Nat) (st st' : ArchSt)
    (h : handle_revision wiki remote fuel pageid revid st = (st', none))
    (hcl : metaChainClosed wiki st.objects) : metaChainClosed wiki st'.objects := by
  obtain ⟨delta, he, ho, hw, homa⟩ :=
    handle_revision_ordered wiki remote pageid fuel revid st st' h
  have hev := handle_revision_events wiki remote pageid fuel revid st
  rw [h] at hev
  obtain ⟨delta2, he2, ho2, hpm, hpc⟩ := hev
  have hdd : delta2 = delta := by
    have hh : st.events ++ delta2 = st.events ++ delta := by rw [← he, ← he2]
    exact List.append_cancel_left hh
  rw [hdd] at hpm hpc
  intro o hoin m hval hbucket
  rw [ho] at hoin
  rcases List.mem_append.mp hoin with hold | hnew
  · rcases hcl o hold m hval hbucket with hz | hex
    · exact Or.inl hz
    · right
      rw [ho]
      exact s3_key_exists_mono _ _ _ _ hex
  · rw [List.mem_filterMap] at hnew
    obtain ⟨e, hein, heo⟩ := hnew
    cases e with
    | head b k => simp [eventObj] at heo
    | fetch rv w => simp [eventObj] at heo
    | putContent p r c =>
      simp [eventObj] at heo
      rw [← heo] at hval
      simp at hval
    | putMeta p r m0 =>
      simp [eventObj] at heo
      rw [← heo] at hval
      simp at hval
      obtain ⟨hpq, -, hmpq, -⟩ := hpm p r m0 hein
      subst hval
      rw [hpq] at hein hmpq
      rcases writesOrdered_mem wiki pageid delta st.objects hw r m0 hein with hz | hex
      · exact Or.inl hz
      · right
        rw [ho, hmpq]
        exact hex

/-! ## Concrete test fixtures (used by the witnesses) -/

/-- A concrete metadata value. -/
def tMeta2 : Metadata :=
  { pageid := 1, title := "T", url := "U", revid := 2, parentid := 1,
    user := "u", timestamp := "ts", comment := "c" }

/-- A concrete well-formed revision in a response. -/
def tRawRev (rv par : Nat) : RawRevision :=
  { revid := some rv, parentid := some par, user := some "u", timestamp := some "ts",
    comment := some "c", star := some "body", slots := none }

def tRawPage (rv par : Nat) : RawPage :=
  { pageid := some 1, title := some "T", fullurl := some "U",
    revisions := some [tRawRev rv par] }

def tRawResult (rv par : Nat) : RawResult := ⟨some [("1", tRawPage rv par)]⟩

/-- A concrete remote wiki serving page 1 with revision chain 2 → 1 → 0. -/
def tRemote : Remote := fun rv _need =>
  if rv = 2 then .ok (tRawResult 2 1)
  else if rv = 1 then .ok (tRawResult 1 0)
  else .exhausted

/-- A remote whose single-revid response is malformed (no page entries). -/
def tBadRemote : Remote := fun _ _ => .ok ⟨some []⟩

def tWiki : Wiki := { s3_bucket := "bkt", s3_pref := "x/", slots := none }

/-- Empty storage. -/
def tSt0 : ArchSt := { objects := [], events := [] }

/-- Storage already holding the metadata object of (1, 2). -/
def tStMeta : ArchSt :=
  { objects := [("bkt", s3_key_for_revision_metadata tWiki 1 2, .meta tMeta2)],
    events := [] }

/-- Storage holding the content object of (1, 2) but not its metadata. -/
def tStContent : ArchSt :=
  { objects := [("bkt", s3_key_for_revision_content tWiki 1 2, .content "body")],
    events := [] }

/-! ## The claims -/

/-- A run that starts with the metadata object present returns successfully
having probed at most that one key: storage unchanged, no network fetch, no
writes. -/
theorem handle_revision_memo_run (wiki : Wiki) (remote : Remote)
    (fuel pageid revid : Nat) (st : ArchSt)
    (hex : s3_key_exists st.objects wiki.s3_bucket
      (s3_key_for_revision_metadata wiki pageid revid) = true) :
    ∃ st', handle_revision wiki remote fuel pageid revid st = (st', none) ∧
      st'.objects = st.objects ∧
      (st'.events = st.events ∨
       st'.events = st.events ++
         [Event.head wiki.s3_bucket (s3_key_for_revision_metadata wiki pageid revid)]) := by
  by_cases h0 : revid = 0
  · subst h0
    have hp : handle_prepare wiki remote pageid 0 st = (st, .halt none) := by
      simp [handle_prepare]
    exact ⟨st, handle_revision_halt wiki remote fuel pageid 0 st st none hp, rfl,
      Or.inl rfl⟩
  · have hp : handle_prepare wiki remote pageid revid st =
        ({ st with events := st.events ++
            [Event.head wiki.s3_bucket (s3_key_for_revision_metadata wiki pageid revid)] },
         .halt none) := by
      simp [handle_prepare, h0, hex, recordEvent]
    exact ⟨_, handle_revision_halt wiki remote fuel pageid revid st _ none hp, rfl,
      Or.inr rfl⟩

/-- C1.  Ancestor-first write ordering: in every successful run, each
metadata write in the appended trace happens at a moment when the parent's
metadata object is already in storage (root sentinel aside), so metadata
writes occur grandparent first, then parent, then revid; once a metadata
write appears, no content write for that revision (indeed none at all)
follows it, so a revision's content write precedes its own metadata write;
and the closure of storage under "parent metadata present" is preserved,
which extends the parent-level ordering to all ancestors. -/
theorem archive_ancestor_first_ordering (wiki : Wiki) (remote : Remote)
    (fuel pageid revid : Nat) (st st' : ArchSt)
    (h : handle_revision wiki remote fuel pageid revid st = (st', none)) :
    ∃ delta, st'.events = st.events ++ delta ∧
      writesOrdered wiki pageid st.objects delta ∧
      (∀ l1 rv m l2, delta = l1 ++ Event.putMeta pageid rv m :: l2 →
        ∀ c, Event.putContent pageid rv c ∉ l2) ∧
      (metaChainClosed wiki st.objects → metaChainClosed wiki st'.objects) := by
  obtain ⟨delta, he, ho, hw, homa⟩ :=
    handle_revision_ordered wiki remote pageid fuel revid st st' h
  refine ⟨delta, he, hw, ?_,
    fun hcl => handle_revision_closed wiki remote fuel pageid revid st st' h hcl⟩
  intro l1 rv m l2 hdec c hinc
  obtain ⟨p', r', m', heq⟩ :=
    onlyMetaAfterMeta_suffix l1 delta homa pageid rv m l2 hdec _ hinc
  simp at heq

/-- C1 witness: the ordering facts hold of the concrete archival run of the
chain 2 → 1 → 0 into empty storage. -/
theorem archive_ancestor_first_ordering_witness :
    ∃ delta, ((handle_revision tWiki tRemote 5 1 2 tSt0).1).events =
        tSt0.events ++ delta ∧
      writesOrdered tWiki 1 tSt0.objects delta ∧
      (∀ l1 rv m l2, delta = l1 ++ Event.putMeta 1 rv m :: l2 →
        ∀ c, Event.putContent 1 rv c ∉ l2) ∧
      (metaChainClosed tWiki tSt0.objects →
       metaChainClosed tWiki ((handle_revision tWiki tRemote 5 1 2 tSt0).1).objects) :=
  archive_ancestor_first_ordering tWiki tRemote 5 1 2 tSt0
    (handle_revision tWiki tRemote 5 1 2 tSt0).1 rfl

/-- C2.  Idempotence: after any successful run, running again with the same
remote (any fuel) succeeds, leaves storage byte-for-byte unchanged, and
performs zero storage writes — the trace grows by at most the one metadata
existence probe. -/
theorem archive_idempotent (wiki : Wiki) (remote : Remote)
    (fuel fuel2 pageid revid : Nat) (st st1 : ArchSt)
    (h : handle_revision wiki remote fuel pageid revid st = (st1, none)) :
    ∃ st2, handle_revision wiki remote fuel2 pageid revid st1 = (st2, none) ∧
      st2.objects = st1.objects ∧
      (st2.events = st1.events ∨
       st2.events = st1.events ++
         [Event.head wiki.s3_bucket (s3_key_for_revision_metadata wiki pageid revid)]) := by
  rcases handle_revision_meta_after wiki remote fuel pageid revid st st1 h with h0 | hex
  · subst h0
    have hp : handle_prepare wiki remote pageid 0 st1 = (st1, .halt none) := by
      simp [handle_prepare]
    exact ⟨st1, handle_revision_halt wiki remote fuel2 pageid 0 st1 st1 none hp, rfl,
      Or.inl rfl⟩
  · exact handle_revision_memo_run wiki remote fuel2 pageid revid st1 hex

/-- C2 witness: archiving (1, 2) twice into empty storage — the second call
writes nothing and leaves storage as after the first. -/
theorem archive_idempotent_witness :
    ∃ st2, handle_revision tWiki tRemote 5 1 2
        (handle_revision tWiki tRemote 5 1 2 tSt0).1 = (st2, none) ∧
      st2.objects = ((handle_revision tWiki tRemote 5 1 2 tSt0).1).objects ∧
      (st2.events = ((handle_revision tWiki tRemote 5 1 2 tSt0).1).events ∨
       st2.events = ((handle_revision tWiki tRemote 5 1 2 tSt0).1).events ++
         [Event.head tWiki.s3_bucket (s3_key_for_revision_metadata tWiki 1 2)]) :=
  archive_idempotent tWiki tRemote 5 5 1 2 tSt0
    (handle_revision tWiki tRemote 5 1 2 tSt0).1 rfl

/-- C3.  Memoization short-circuit: when the metadata object already exists,
the call returns successfully at once; storage is unchanged and the trace
grows by at most the single metadata HEAD probe — in particular no fetch
(network call) and no write of content or metadata for the revision or any
ancestor occurs. -/
theorem archive_memoized_no_effects (wiki : Wiki) (remote : Remote)
    (fuel pageid revid : Nat) (st : ArchSt)
    (hex : s3_key_exists st.objects wiki.s3_bucket
      (s3_key_for_revision_metadata wiki pageid revid) = true) :
    ∃ st', handle_revision wiki remote fuel pageid revid st = (st', none) ∧
      st'.objects = st.objects ∧
      (st'.events = st.events ∨
       st'.events = st.events ++
         [Event.head wiki.s3_bucket (s3_key_for_revision_metadata wiki pageid revid)]) :=
  handle_revision_memo_run wiki remote fuel pageid revid st hex

/-- C3 witness: with the metadata of (1, 2) already stored, the call
performs only the HEAD probe. -/
theorem archive_memoized_no_effects_witness :
    ∃ st', handle_revision tWiki tRemote 5 1 2 tStMeta = (st', none) ∧
      st'.objects = tStMeta.objects ∧
      (st'.events = tStMeta.events ∨
       st'.events = tStMeta.events ++
         [Event.head tWiki.s3_bucket (s3_key_for_revision_metadata tWiki 1 2)]) :=
  archive_memoized_no_effects tWiki tRemote 5 1 2 tStMeta (by decide)

/-- C4.  Continuation resolution: a parameter name is selected from the
continuation block iff it occurs as a second-level key and either does not
start with the generator marker g, or all second-level keys start with g
(the unconditional fallback); and the two concrete behaviors from the spec. -/
theorem continuation_resolution :
    (∀ (qc : List (String × Dict)) (k : String),
      hasKey (continueParamsOf qc) k = true ↔
        ((∃ p1 ∈ qc, ∃ p2 ∈ p1.2, p2.1 = k) ∧
         (startsWithG k = false ∨
          ∀ p1 ∈ qc, ∀ p2 ∈ p1.2, startsWithG p2.1 = true))) ∧
    continueParamsOf [("query", [("gpageid", "7")]), ("another", [("foo", "1")])] =
      [("foo", "1")] ∧
    continueParamsOf [("query", [("gcont", "2")])] = [("gcont", "2")] :=
  ⟨hasKey_continueParamsOf, by decide, by decide⟩

/-- C4 witness: the non-generator key foo is selected from the concrete
continuation block of the spec example. -/
theorem continuation_resolution_witness :
    hasKey (continueParamsOf [("query", [("gpageid", "7")]), ("another", [("foo", "1")])])
      "foo" = true :=
  (continuation_resolution.1
      [("query", [("gpageid", "7")]), ("another", [("foo", "1")])] "foo").mpr
    ⟨⟨("another", [("foo", "1")]), by decide, ("foo", "1"), by decide, rfl⟩,
     Or.inl (by decide)⟩

/-- C5.  Single-revid response validation: if the response violates any of
the four shape conditions (exactly one page, matching page id, exactly one
revision, matching revision id), the run fails with protocolError
(AssertionError) and writes nothing: storage is unchanged and the trace
gains only the two HEAD probes and the fetch. -/
theorem single_revid_validation (wiki : Wiki) (remote : Remote)
    (fuel pageid revid : Nat) (st : ArchSt) (result : RawResult)
    (h0 : revid ≠ 0)
    (hm : s3_key_exists st.objects wiki.s3_bucket
      (s3_key_for_revision_metadata wiki pageid revid) = false)
    (hr : remote revid (! s3_key_exists st.objects wiki.s3_bucket
      (s3_key_for_revision_content wiki pageid revid)) = .ok result)
    (hv : singleRevViolation pageid revid result = true) :
    handle_revision wiki remote fuel pageid revid st =
      ({ st with events := st.events ++
          [Event.head wiki.s3_bucket (s3_key_for_revision_metadata wiki pageid revid),
           Event.head wiki.s3_bucket (s3_key_for_revision_content wiki pageid revid),
           Event.fetch revid (! s3_key_exists st.objects wiki.s3_bucket
             (s3_key_for_revision_content wiki pageid revid))] },
       some .protocolError) := by
  have hval := singleRevViolation_validate pageid revid result hv
  have hp : handle_prepare wiki remote pageid revid st =
      ({ st with events := st.events ++
          [Event.head wiki.s3_bucket (s3_key_for_revision_metadata wiki pageid revid),
           Event.head wiki.s3_bucket (s3_key_for_revision_content wiki pageid revid),
           Event.fetch revid (! s3_key_exists st.objects wiki.s3_bucket
             (s3_key_for_revision_content wiki pageid revid))] },
       .halt (some .protocolError)) := by
    simp [handle_prepare, h0, hm, hr, hval, recordEvent, List.append_assoc]
  exact handle_revision_halt wiki remote fuel pageid revid st _ _ hp

/-- C5 witness: a response with an empty pages dict makes the run fail with
protocolError without writing. -/
theorem single_revid_validation_witness :
    handle_revision tWiki tBadRemote 5 1 2 tSt0 =
      ({ tSt0 with events := tSt0.events ++
          [Event.head tWiki.s3_bucket (s3_key_for_revision_metadata tWiki 1 2),
           Event.head tWiki.s3_bucket (s3_key_for_revision_content tWiki 1 2),
           Event.fetch 2 (! s3_key_exists tSt0.objects tWiki.s3_bucket
             (s3_key_for_revision_content tWiki 1 2))] },
       some .protocolError) :=
  single_revid_validation tWiki tBadRemote 5 1 2 tSt0 ⟨some []⟩
    (by decide) (by decide) rfl (by decide)

/-- C6.  Query-client error policy: a response whose body has an error
member makes the step raise WikiError with that payload (even though the
HTTP status was success — the step only sees the parsed body), a warnings
member does the same, and a raising step yields no result fragment; at the
loop level the failed request contributes no fragment to the run's yields. -/
theorem query_error_policy (α : Type) (j : ApiResponse α) :
    (∀ e, j.error = some e →
      mwapi_step j = MwStep.fail e ∧ MwStep.yields (mwapi_step j) = []) ∧
    (∀ w, j.error = none → j.warnings = some w →
      mwapi_step j = MwStep.fail w ∧ MwStep.yields (mwapi_step j) = []) ∧
    (∀ (base : Dict) (rest : List (ApiResponse α)) (cont : Dict) (p : String),
      mwapi_step j = MwStep.fail p →
      (mwapi_loop base (j :: rest) cont).2.2.1 = some p ∧
      (mwapi_loop base (j :: rest) cont).2.1 = []) := by
  refine ⟨?_, ?_, ?_⟩
  · intro e he
    constructor <;> simp [mwapi_step, he, MwStep.yields]
  · intro w he hw
    constructor <;> simp [mwapi_step, he, hw, MwStep.yields]
  · intro base rest cont p hf
    constructor <;> simp [mwapi_loop, hf]

/-- C6 witness: concrete error and warnings responses raise and yield
nothing. -/
theorem query_error_policy_witness :
    mwapi_step (⟨some "boom", none, some 0, none⟩ : ApiResponse Nat) =
      MwStep.fail "boom" ∧
    mwapi_step (⟨none, some "warn", some 0, none⟩ : ApiResponse Nat) =
      MwStep.fail "warn" ∧
    (mwapi_loop [] [(⟨some "boom", none, some 0, none⟩ : ApiResponse Nat)] []).2.1 = [] :=
  ⟨((query_error_policy Nat ⟨some "boom", none, some 0, none⟩).1 "boom" rfl).1,
   ((query_error_policy Nat ⟨none, some "warn", some 0, none⟩).2.1 "warn" rfl rfl).1,
   ((query_error_policy Nat ⟨some "boom", none, some 0, none⟩).2.2 [] [] [] "boom"
     ((query_error_policy Nat ⟨some "boom", none, some 0, none⟩).1 "boom" rfl).1).2⟩

/-- C7.  Storage key derivation: the metadata key is
prefix ++ page_ ++ pad8 pageid ++ /rev_ ++ pad8 revid ++ .yaml, the content
key the same with suffix _data.gz; pad8 left-pads the decimal digits with
zeros to 8 characters; and the concrete example of the spec. -/
theorem storage_key_derivation :
    (∀ (w : Wiki) (pageid revid : Nat),
      s3_key_for_revision_metadata w pageid revid =
        w.s3_pref ++ "page_" ++ pad8 pageid ++ "/rev_" ++ pad8 revid ++ ".yaml" ∧
      s3_key_for_revision_content w pageid revid =
        w.s3_pref ++ "page_" ++ pad8 pageid ++ "/rev_" ++ pad8 revid ++ "_data.gz") ∧
    (∀ n : Nat, pad8 n =
      String.mk (List.replicate (8 - (toString n).length) '0') ++ toString n) ∧
    s3_key_for_revision_metadata { s3_bucket := "bkt", s3_pref := "x/", slots := none }
      5 42 = "x/page_00000005/rev_00000042.yaml" ∧
    s3_key_for_revision_content { s3_bucket := "bkt", s3_pref := "x/", slots := none }
      5 42 = "x/page_00000005/rev_00000042_data.gz" := by
  refine ⟨fun w p r => ⟨rfl, rfl⟩, ?_, by decide, by decide⟩
  intro n
  unfold pad8
  by_cases hlen : (toString n).length < 8
  · rw [if_pos hlen]
  · rw [if_neg hlen]
    have h8 : 8 - (toString n).length = 0 := by omega
    rw [h8]
    rfl

/-- C8.  Content-without-metadata: when the content object exists but the
metadata object does not, a successful run fetches with need_content false
(no content requested), records no content write for the revision anywhere
in the run, and still ends by writing the revision's metadata — last, after
the ancestor recursion. -/
theorem content_without_metadata (wiki : Wiki) (remote : Remote)
    (fuel pageid revid : Nat) (st st' : ArchSt)
    (h0 : revid ≠ 0)
    (hm : s3_key_exists st.objects wiki.s3_bucket
      (s3_key_for_revision_metadata wiki pageid revid) = false)
    (hc : s3_key_exists st.objects wiki.s3_bucket
      (s3_key_for_revision_content wiki pageid revid) = true)
    (h : handle_revision wiki remote fuel pageid revid st = (st', none)) :
    ∃ m mid,
      st'.events = st.events ++
        (Event.head wiki.s3_bucket (s3_key_for_revision_metadata wiki pageid revid) ::
         Event.head wiki.s3_bucket (s3_key_for_revision_content wiki pageid revid) ::
         Event.fetch revid false ::
         (mid ++ [Event.putMeta pageid revid m])) ∧
      (∀ c, Event.putContent pageid revid c ∉ mid) := by
  rcases handle_prepare_cases wiki remote pageid revid st with
    ⟨hz, hp⟩ | ⟨_, hmx, hp⟩ | ⟨e, _, _, hp⟩ |
    ⟨par, m, _, _, _, hmp, hmr, hmpar, hp⟩ |
    ⟨par, m, c, _, _, hcx, _, _, _, hp⟩
  · exact absurd hz h0
  · rw [hmx] at hm
    exact absurd hm (by simp)
  · rw [handle_revision_halt wiki remote fuel pageid revid st _ (some e) hp] at h
    injection h with h1 h2
    exact absurd h2 (by simp)
  · cases fuel with
    | zero =>
      rw [handle_revision_recur_zero wiki remote pageid revid st _ par m hp] at h
      injection h with h1 h2
      exact absurd h2 (by simp)
    | succ fuel =>
      rw [handle_revision_recur_succ wiki remote fuel pageid revid st _ par m hp] at h
      rcases hrec : handle_revision wiki remote fuel pageid par
          ({ st with events := st.events ++
              [.head wiki.s3_bucket (s3_key_for_revision_metadata wiki pageid revid),
               .head wiki.s3_bucket (s3_key_for_revision_content wiki pageid revid),
               .fetch revid false] }) with ⟨st2, e2⟩
      rw [hrec] at h
      cases e2 with
      | some e =>
        injection h with h1 h2
        exact absurd h2 (by simp)
      | none =>
        injection h with h1 h2
        subst h1
        have hev := handle_revision_events wiki remote pageid fuel par
          ({ st with events := st.events ++
              [.head wiki.s3_bucket (s3_key_for_revision_metadata wiki pageid revid),
               .head wiki.s3_bucket (s3_key_for_revision_content wiki pageid revid),
               .fetch revid false] })
        obtain ⟨d2, he2, -, -, -⟩ := hev
        refine ⟨m, d2, ?_, ?_⟩
        · rw [hrec] at he2
          dsimp only at he2
          simp only [putMetaSt]
          rw [he2]
          simp [List.append_assoc]
        · intro c' hin
          exact handle_revision_no_putContent wiki remote pageid revid fuel par
            ({ st with events := st.events ++
                [.head wiki.s3_bucket (s3_key_for_revision_metadata wiki pageid revid),
                 .head wiki.s3_bucket (s3_key_for_revision_content wiki pageid revid),
                 .fetch revid false] }) hc d2 he2 c' hin
  · rw [hcx] at hc
    exact absurd hc (by simp)

/-- C8 witness: with the content of (1, 2) stored but not its metadata, the
run fetches without content, skips the content write, and writes the
metadata last. -/
theorem content_without_metadata_witness :
    ∃ m mid,
      ((handle_revision tWiki tRemote 5 1 2 tStContent).1).events =
        tStContent.events ++
          (Event.head tWiki.s3_bucket (s3_key_for_revision_metadata tWiki 1 2) ::
           Event.head tWiki.s3_bucket (s3_key_for_revision_content tWiki 1 2) ::
           Event.fetch 2 false ::
           (mid ++ [Event.putMeta 1 2 m])) ∧
      (∀ c, Event.putContent 1 2 c ∉ mid) :=
  content_without_metadata tWiki tRemote 5 1 2 tStContent
    (handle_revision tWiki tRemote 5 1 2 tStContent).1
    (by decide) (by decide) (by decide) rfl

/-- C9.  Root sentinel: a call with revid 0 returns the state unchanged —
no network call, no storage call, no write of any kind — and no run ever
records a metadata write for revid 0. -/
theorem root_sentinel_noop :
    (∀ (wiki : Wiki) (remote : Remote) (fuel pageid : Nat) (st : ArchSt),
      handle_revision wiki remote fuel pageid 0 st = (st, none)) ∧
    (∀ (wiki : Wiki) (remote : Remote) (fuel pageid revid : Nat) (st : ArchSt)
        (delta : List Event),
      ((handle_revision wiki remote fuel pageid revid st).1).events =
        st.events ++ delta →
      ∀ p m, Event.putMeta p 0 m ∉ delta) := by
  constructor
  · intro wiki remote fuel pageid st
    have hp : handle_prepare wiki remote pageid 0 st = (st, .halt none) := by
      simp [handle_prepare]
    exact handle_revision_halt wiki remote fuel pageid 0 st st none hp
  · intro wiki remote fuel pageid revid st delta hdelta p m hin
    obtain ⟨delta2, he2, -, hpm, -⟩ :=
      handle_revision_events wiki remote pageid fuel revid st
    have hdd : delta2 = delta := by
      have hh : st.events ++ delta2 = st.events ++ delta := by rw [← he2, ← hdelta]
      exact List.append_cancel_left hh
    rw [hdd] at hpm
    exact (hpm p 0 m hin).2.1 rfl

/-- C9 witness: the concrete no-op call at revid 0 and the absence of
revid-0 metadata writes in the concrete run on revid 2. -/
theorem root_sentinel_noop_witness :
    handle_revision tWiki tRemote 5 1 0 tSt0 = (tSt0, none) ∧
    ∀ p m, Event.putMeta p 0 m ∉
      ((handle_revision tWiki tRemote 5 1 2 tSt0).1).events :=
  ⟨root_sentinel_noop.1 tWiki tRemote 5 1 tSt0,
   fun p m => root_sentinel_noop.2 tWiki tRemote 5 1 2 tSt0
     ((handle_revision tWiki tRemote 5 1 2 tSt0).1).events (by simp [tSt0]) p m⟩

/-! ## Heap frame lemmas for C10 -/

theorem heapGet_heapSet_ne (h : Heap) (r pr : Nat) (d : Dict) (hne : r ≠ pr) :
    heapGet (heapSet h r d) pr = heapGet h pr := by
  unfold heapGet heapSet
  induction h generalizing r pr with
  | nil => rfl
  | cons a t ih =>
    cases r with
    | zero =>
      cases pr with
      | zero => exact absurd rfl hne
      | succ pr' => rfl
    | succ r' =>
      cases pr with
      | zero => rfl
      | succ pr' => exact ih r' pr' (fun hc => hne (by rw [hc]))

theorem heapGet_append_lt (h : Heap) (l : List Dict) (pr : Nat)
    (hpr : pr < h.length) : heapGet (h ++ l) pr = heapGet h pr := by
  unfold heapGet
  induction h generalizing pr with
  | nil => simp at hpr
  | cons a t ih =>
    cases pr with
    | zero => rfl
    | succ pr' => exact ih pr' (Nat.lt_of_succ_lt_succ hpr)

theorem heapSet_length (h : Heap) (r : Nat) (d : Dict) :
    (heapSet h r d).length = h.length := by
  simp [heapSet]

theorem heapGet_heapInsertRef_ne (h : Heap) (r pr : Nat) (k v : String)
    (hne : r ≠ pr) : heapGet (heapInsertRef h r k v) pr = heapGet h pr := by
  unfold heapInsertRef
  exact heapGet_heapSet_ne h r pr _ hne

theorem heapInsertRef_length (h : Heap) (r : Nat) (k v : String) :
    (heapInsertRef h r k v).length = h.length := by
  unfold heapInsertRef
  exact heapSet_length h r _

theorem heapGet_heapUpdateRef_ne (h : Heap) (dst src pr : Nat)
    (hne : dst ≠ pr) : heapGet (heapUpdateRef h dst src) pr = heapGet h pr := by
  unfold heapUpdateRef
  exact heapGet_heapSet_ne h dst pr _ hne

theorem heapUpdateRef_length (h : Heap) (dst src : Nat) :
    (heapUpdateRef h dst src).length = h.length := by
  unfold heapUpdateRef
  exact heapSet_length h dst _

/-- Sanity of the reference model: a write through one reference is
observable through the heap, so the frame theorems below are not vacuous. -/
theorem heapInsertRef_mutates :
    heapGet (heapInsertRef [[("a", "b")]] 0 "k" "v") 0 = [("a", "b"), ("k", "v")] := by
  decide

/-- The request loop only ever allocates fresh objects and mutates them, so
every dict object that existed before the loop — in particular the
caller's — is untouched, and the heap only grows. -/
theorem mwapi_loop_heap_frame {α : Type} (br pr : Nat) :
    ∀ (responses : List (ApiResponse α)) (h : Heap) (cr : Nat),
      pr < h.length →
      heapGet (mwapi_loop_heap br responses h cr).heap pr = heapGet h pr ∧
      h.length ≤ (mwapi_loop_heap br responses h cr).heap.length := by
  intro responses
  induction responses with
  | nil =>
    intro h cr hpr
    exact ⟨rfl, Nat.le_refl _⟩
  | cons j rest ih =>
    intro h cr hpr
    have hg1 : heapGet (h ++ [heapGet h br]) pr = heapGet h pr :=
      heapGet_append_lt h _ pr hpr
    have hcurr : h.length ≠ pr := by omega
    have hg2 : heapGet (heapUpdateRef (h ++ [heapGet h br]) h.length cr) pr =
        heapGet h pr := by
      rw [heapGet_heapUpdateRef_ne _ _ _ _ hcurr, hg1]
    have hlen2 : (heapUpdateRef (h ++ [heapGet h br]) h.length cr).length =
        h.length + 1 := by
      rw [heapUpdateRef_length]
      simp
    cases hstep : mwapi_step j with
    | fail p =>
      simp only [mwapi_loop_heap, heapAlloc, hstep]
      exact ⟨hg2, by rw [hlen2]; omega⟩
    | ok y contOpt =>
      cases contOpt with
      | none =>
        simp only [mwapi_loop_heap, heapAlloc, hstep]
        exact ⟨hg2, by rw [hlen2]; omega⟩
      | some cp =>
        have hlen3 : pr <
            ((heapUpdateRef (h ++ [heapGet h br]) h.length cr) ++ [cp]).length := by
          rw [List.length_append, hlen2]
          omega
        obtain ⟨ihg, ihlen⟩ := ih
          ((heapUpdateRef (h ++ [heapGet h br]) h.length cr) ++ [cp])
          ((heapUpdateRef (h ++ [heapGet h br]) h.length cr).length) hlen3
        have hg3 : heapGet
            ((heapUpdateRef (h ++ [heapGet h br]) h.length cr) ++ [cp]) pr =
            heapGet h pr := by
          rw [heapGet_append_lt _ _ _ (by rw [hlen2]; omega), hg2]
        simp only [mwapi_loop_heap, heapAlloc, hstep]
        constructor
        · rw [ihg, hg3]
        · calc h.length
              ≤ ((heapUpdateRef (h ++ [heapGet h br]) h.length cr) ++ [cp]).length := by
                rw [List.length_append, hlen2]; omega
            _ ≤ _ := ihlen

/-- C10.  The query client never mutates the caller's parameter mapping:
under the reference semantics of Python dicts, the injected fixed
parameters go to the fresh copy made at line 34, each request's
continuation parameters go to the fresh per-request copy made at line 45,
and after a full run (any number of fragments, including exhaustion) the
dict object the caller's reference points to is byte-for-byte what it
was. -/
theorem query_params_not_mutated (α : Type) (h : Heap) (pr : Nat)
    (responses : List (ApiResponse α)) (hpr : pr < h.length) :
    heapGet (mwapi_query_run h pr responses).heap pr = heapGet h pr := by
  unfold mwapi_query_run
  simp only [heapAlloc]
  have hbr : h.length ≠ pr := by omega
  have l0 : (h ++ [heapGet h pr]).length = h.length + 1 := by simp
  have l1 : (heapInsertRef (h ++ [heapGet h pr]) h.length "action" "query").length =
      h.length + 1 := by rw [heapInsertRef_length, l0]
  have l2 : (heapInsertRef (heapInsertRef (h ++ [heapGet h pr]) h.length
      "action" "query") h.length "format" "json").length = h.length + 1 := by
    rw [heapInsertRef_length, l1]
  have l3 : (heapInsertRef (heapInsertRef (heapInsertRef (h ++ [heapGet h pr])
      h.length "action" "query") h.length "format" "json") h.length
      "rawcontinue" "").length = h.length + 1 := by
    rw [heapInsertRef_length, l2]
  have l4 : (heapInsertRef (heapInsertRef (heapInsertRef (heapInsertRef
      (h ++ [heapGet h pr]) h.length "action" "query") h.length "format" "json")
      h.length "rawcontinue" "") h.length "maxlag" "1").length = h.length + 1 := by
    rw [heapInsertRef_length, l3]
  have hpr5 : pr < (heapInsertRef (heapInsertRef (heapInsertRef (heapInsertRef
      (h ++ [heapGet h pr]) h.length "action" "query") h.length "format" "json")
      h.length "rawcontinue" "") h.length "maxlag" "1" ++ [[]]).length := by
    rw [List.length_append, l4]
    omega
  obtain ⟨hg, -⟩ := mwapi_loop_heap_frame h.length pr responses
    (heapInsertRef (heapInsertRef (heapInsertRef (heapInsertRef
      (h ++ [heapGet h pr]) h.length "action" "query") h.length "format" "json")
      h.length "rawcontinue" "") h.length "maxlag" "1" ++ [[]])
    (heapInsertRef (heapInsertRef (heapInsertRef (heapInsertRef
      (h ++ [heapGet h pr]) h.length "action" "query") h.length "format" "json")
      h.length "rawcontinue" "") h.length "maxlag" "1").length hpr5
  rw [hg]
  rw [heapGet_append_lt _ _ _ (by rw [l4]; omega)]
  rw [heapGet_heapInsertRef_ne _ _ _ _ _ hbr]
  rw [heapGet_heapInsertRef_ne _ _ _ _ _ hbr]
  rw [heapGet_heapInsertRef_ne _ _ _ _ _ hbr]
  rw [heapGet_heapInsertRef_ne _ _ _ _ _ hbr]
  exact heapGet_append_lt h _ pr hpr

/-- C10 witness: a concrete two-request run (with a continuation) against a
one-object heap leaves the caller's dict object unchanged. -/
theorem query_params_not_mutated_witness :
    heapGet (mwapi_query_run [[("a", "b")]] 0
      [(⟨none, none, some 0, some [("query", [("plcontinue", "1")])]⟩ :
          ApiResponse Nat),
       (⟨none, none, some 1, none⟩ : ApiResponse Nat)]).heap 0 =
      heapGet [[("a", "b")]] 0 :=
  query_params_not_mutated Nat [[("a", "b")]] 0
    [⟨none, none, some 0, some [("query", [("plcontinue", "1")])]⟩,
     ⟨none, none, some 1, none⟩] (by decide)

end Wikiwatch
